import Mathlib

/-!
Verification development for the ComfyUI-JK-ToRetro repository.

The Python sources `to_retro.py` and `image_to_retro.py` are embedded
shallowly below.  Bitmaps are dense grids of RGB triples represented by a
dimension pair and a total pixel function; machine `uint8` values are
modelled by natural numbers (all relevant values stay in range, numpy's
truncating cast is modelled by an explicit floor).  Python `float` ratios
are modelled by exact rationals; the concrete inputs used in the theorems
below stay far away from representation boundaries.  External library
primitives (ImageMagick remap/quantize/ressize filters, PIL paste and
quantize, the hitherdither dithering algorithms) are not part of the
repository; they are either modelled from the specification's description
of them (marked `Modelled from the spec:`) or taken as parameters of the
pipeline and quantified over in the theorems.
-/

namespace ToRetro

/-- An RGB colour triple.  Channels are integers so that error-adjusted
intermediate colours (which may leave [0,255]) are representable. -/
structure RGB where
  r : ℤ
  g : ℤ
  b : ℤ
deriving DecidableEq, Repr

/-- The black colour used for padding backgrounds. -/
def black : RGB := ⟨0, 0, 0⟩

/-- A bitmap: a width, a height and a total pixel function.  Only the
pixels with `x < width` and `y < height` are meaningful. -/
structure Bitmap where
  width : ℕ
  height : ℕ
  pix : ℕ → ℕ → RGB

/-- Observational equality of bitmaps: same dimensions and equal pixels
at every in-bounds position. -/
def Bitmap.Eqv (a b : Bitmap) : Prop :=
  a.width = b.width ∧ a.height = b.height ∧
    ∀ x y, x < a.width → y < a.height → a.pix x y = b.pix x y

/-- Squared Euclidean distance between two colours in RGB space. -/
def dist2 (c d : RGB) : ℤ :=
  (c.r - d.r) ^ 2 + (c.g - d.g) ^ 2 + (c.b - d.b) ^ 2

/-- First-wins minimiser of an integer key over a start element and a
list of further candidates. -/
def minBy {α : Type} (key : α → ℤ) (b : α) (l : List α) : α :=
  l.foldl (fun best q => if key q < key best then q else best) b

/-- Nearest palette colour by squared Euclidean distance, first entry
winning ties; an empty palette yields black. -/
def nearestColor (pal : List RGB) (c : RGB) : RGB :=
  match pal with
  | [] => black
  | p :: ps => minBy (dist2 c) p ps

end ToRetro

namespace ToRetro

/-- Source `to_retro.py` `ORDERED_DITHER_MAPS`: user-facing names of the
Bayer ordered dithers and their matrix orders. -/
def ORDERED_DITHER_MAPS : List (String × ℕ) :=
  [("Bayer 2x2 (ordered)", 2), ("Bayer 4x4 (ordered)", 4),
   ("Bayer 8x8 (ordered)", 8), ("Bayer 16x16 (ordered)", 16)]

/-- Source `YLILUOMA_DITHER` table. -/
def YLILUOMA_DITHER : List (String × String) := [("Yliluoma (ordered)", "yliluoma")]

/-- Source `CLUSTER_DOT_DITHER` table. -/
def CLUSTER_DOT_DITHER : List (String × String) := [("Cluster-dot (ordered)", "cluster")]

/-- Source `IMAGEMAGICK_ERROR_DIFFUSION` table. -/
def IMAGEMAGICK_ERROR_DIFFUSION : List (String × String) :=
  [("Floyd-Steinberg", "floyd_steinberg"), ("Riemersma", "riemersma"), ("None", "no")]

/-- Source `HITHERDITHER_ERROR_DIFFUSION` table. -/
def HITHERDITHER_ERROR_DIFFUSION : List (String × String) :=
  [("Jarvis-Judice-Ninke", "jjn"), ("Stucki", "stucki"), ("Burkes", "burkes"),
   ("Sierra-3", "sierra3"), ("Sierra-2", "sierra2"), ("Sierra-2-4A", "sierra2_4a"),
   ("Atkinson", "atkinson")]

/-- Source `ERROR_DIFFUSION_METHODS`: the merge of the two error-diffusion
tables (their key sets are disjoint, so list append models the dict merge). -/
def ERROR_DIFFUSION_METHODS : List (String × String) :=
  IMAGEMAGICK_ERROR_DIFFUSION ++ HITHERDITHER_ERROR_DIFFUSION

/-- All dither method names the node offers, in the order
`ImageToRetro.INPUT_TYPES` builds its selector list. -/
def recognizedDitherMethods : List String :=
  ERROR_DIFFUSION_METHODS.map Prod.fst ++ YLILUOMA_DITHER.map Prod.fst ++
    CLUSTER_DOT_DITHER.map Prod.fst ++ ORDERED_DITHER_MAPS.map Prod.fst

/-- `k in table` for a Python dict modelled as an association list. -/
def tableContains {α : Type} (tbl : List (String × α)) (k : String) : Bool :=
  tbl.any (fun e => e.1 == k)

/-- `table.get(k, default)` for a Python dict modelled as an association list. -/
def tableGetD {α : Type} (tbl : List (String × α)) (k : String) (d : α) : α :=
  match tbl.find? (fun e => e.1 == k) with
  | some e => e.2
  | none => d

/-- Source `_is_ordered_dither`. -/
def isOrderedDither (m : String) : Bool :=
  tableContains ORDERED_DITHER_MAPS m || tableContains YLILUOMA_DITHER m ||
    tableContains CLUSTER_DOT_DITHER m

/-- Source `_is_yliluoma_dither`. -/
def isYliluomaDither (m : String) : Bool := tableContains YLILUOMA_DITHER m

/-- Source `_is_cluster_dot_dither`. -/
def isClusterDotDither (m : String) : Bool := tableContains CLUSTER_DOT_DITHER m

/-- Source `_get_bayer_order`: defaults to 8 for unknown names. -/
def getBayerOrder (m : String) : ℕ := tableGetD ORDERED_DITHER_MAPS m 8

/-- Source `_get_error_diffusion_method`: defaults to `floyd_steinberg`
for names not in the ImageMagick table. -/
def getErrorDiffusionMethod (m : String) : String :=
  tableGetD IMAGEMAGICK_ERROR_DIFFUSION m "floyd_steinberg"

/-- Source `_is_hitherdither_error_diffusion`. -/
def isHitherditherErrorDiffusion (m : String) : Bool :=
  tableContains HITHERDITHER_ERROR_DIFFUSION m

/-- Source `_get_hitherdither_error_diffusion_method`: defaults to `jjn`. -/
def getHitherditherErrorDiffusionMethod (m : String) : String :=
  tableGetD HITHERDITHER_ERROR_DIFFUSION m "jjn"

/-- The canonical recursively constructed Bayer threshold matrix of size
`2^k`; coordinates are taken modulo the size by the callers. -/
def bayerMatrix : ℕ → ℕ → ℕ → ℕ
  | 0, _, _ => 0
  | k + 1, x, y =>
    let n := 2 ^ k
    let q : ℕ :=
      if y / n % 2 = 0 then (if x / n % 2 = 0 then 0 else 2)
      else (if x / n % 2 = 0 then 3 else 1)
    4 * bayerMatrix k (x % n) (y % n) + q

/-- Recursion depth of the Bayer matrix for a given order (2, 4, 8, 16);
the source's `_get_bayer_order` default of 8 maps to depth 3. -/
def bayerLevel (order : ℕ) : ℕ :=
  if order = 2 then 1 else if order = 4 then 2 else if order = 16 then 4 else 3

/-- Modelled from the spec: the zero-mean per-pixel perturbation of Bayer
ordered dithering, using the fixed per-channel spread constant 64 that the
source passes to hitherdither as `[64, 64, 64]` (the exact hitherdither
arithmetic is external library code). -/
def bayerThreshold (order x y : ℕ) : ℤ :=
  (64 * (2 * (bayerMatrix (bayerLevel order) (x % order) (y % order) : ℤ) + 1)) /
      (2 * (order : ℤ) * order) - 32

/-- Add the same integer offset to every channel of a colour. -/
def RGB.addScalar (c : RGB) (t : ℤ) : RGB := ⟨c.r + t, c.g + t, c.b + t⟩

/-- Modelled from the spec: Bayer ordered dithering — perturb each pixel by
the position-indexed threshold, then map it to the nearest palette colour;
no state is carried between pixels. -/
def orderedBayerDither (pal : List RGB) (order : ℕ) (img : Bitmap) : Bitmap :=
  ⟨img.width, img.height, fun x y =>
    nearestColor pal ((img.pix x y).addScalar (bayerThreshold order x y))⟩

/-- A standard 4×4 clustered dot-growth threshold matrix. -/
def clusterMatrix (x y : ℕ) : ℕ :=
  (([[12, 5, 6, 13], [4, 0, 1, 7], [11, 3, 2, 8], [15, 10, 9, 14]].getD (y % 4) []).getD
    (x % 4) 0)

/-- Modelled from the spec: cluster-dot ordered dithering — the same
threshold-matrix mechanism as Bayer with a clustered dot-growth matrix and
the same spread-constant convention (hitherdither's exact arithmetic is
external library code). -/
def clusterDotDither (pal : List RGB) (img : Bitmap) : Bitmap :=
  ⟨img.width, img.height, fun x y =>
    nearestColor pal
      ((img.pix x y).addScalar ((64 * (2 * (clusterMatrix x y : ℤ) + 1)) / 32 - 32))⟩

/-- Channel-wise average of two colours (integer division). -/
def rgbAvg (p q : RGB) : RGB := ⟨(p.r + q.r) / 2, (p.g + q.g) / 2, (p.b + q.b) / 2⟩

/-- All ordered pairs of palette colours (a pair with equal components
plays the role of a single-colour combination). -/
def allPairs (pal : List RGB) : List (RGB × RGB) :=
  pal.flatMap (fun p => pal.map (fun q => (p, q)))

/-- First-wins minimiser over a candidate-combination list; an empty list
yields the black/black pair. -/
def bestPairAux (c : RGB) : List (RGB × RGB) → RGB × RGB
  | [] => (black, black)
  | pr :: rest => minBy (fun q => dist2 c (rgbAvg q.1 q.2)) pr rest

/-- Modelled from the spec: for Yliluoma's ordered dithering, the
deterministically chosen combination of (up to two) palette colours whose
average best approximates the source colour. -/
def bestPair (pal : List RGB) (c : RGB) : RGB × RGB := bestPairAux c (allPairs pal)

/-- Modelled from the spec: Yliluoma's ordered dithering — per pixel,
choose the best palette-colour combination for that pixel's colour and emit
one of its members selected by a position-dependent ordered-dither index;
each pixel's output depends only on its own colour and position. -/
def yliluomaDither (pal : List RGB) (img : Bitmap) : Bitmap :=
  ⟨img.width, img.height, fun x y =>
    if 2 * bayerMatrix 3 (x % 8) (y % 8) < 64 then (bestPair pal (img.pix x y)).1
    else (bestPair pal (img.pix x y)).2⟩

/-- Per-channel rational quantization error, used by the error-diffusion
store. -/
structure ErrV where
  r : ℚ
  g : ℚ
  b : ℚ

/-- The zero error. -/
def ErrV.zero : ErrV := ⟨0, 0, 0⟩

/-- Scale an error vector by a kernel weight. -/
def ErrV.scale (w : ℚ) (a : ErrV) : ErrV := ⟨w * a.r, w * a.g, w * a.b⟩

/-- The pending-error store of an error-diffusion pass: accumulated error
per pixel position. -/
def ErrStore : Type := ℕ → ℕ → ErrV

/-- An error-diffusion kernel: a list of `(dx, dy, weight)` entries, `dy`
pointing to not-yet-visited rows. -/
def Kernel : Type := List (ℤ × ℕ × ℚ)

/-- Floyd–Steinberg kernel weights. -/
def fsKernel : Kernel :=
  [(1, 0, 7/16), (-1, 1, 3/16), (0, 1, 5/16), (1, 1, 1/16)]

/-- Jarvis–Judice–Ninke kernel weights. -/
def jjnKernel : Kernel :=
  [(1, 0, 7/48), (2, 0, 5/48), (-2, 1, 3/48), (-1, 1, 5/48), (0, 1, 7/48),
   (1, 1, 5/48), (2, 1, 3/48), (-2, 2, 1/48), (-1, 2, 3/48), (0, 2, 5/48),
   (1, 2, 3/48), (2, 2, 1/48)]

/-- Stucki kernel weights. -/
def stuckiKernel : Kernel :=
  [(1, 0, 8/42), (2, 0, 4/42), (-2, 1, 2/42), (-1, 1, 4/42), (0, 1, 8/42),
   (1, 1, 4/42), (2, 1, 2/42), (-2, 2, 1/42), (-1, 2, 2/42), (0, 2, 4/42),
   (1, 2, 2/42), (2, 2, 1/42)]

/-- Burkes kernel weights. -/
def burkesKernel : Kernel :=
  [(1, 0, 8/32), (2, 0, 4/32), (-2, 1, 2/32), (-1, 1, 4/32), (0, 1, 8/32),
   (1, 1, 4/32), (2, 1, 2/32)]

/-- Sierra-3 kernel weights. -/
def sierra3Kernel : Kernel :=
  [(1, 0, 5/32), (2, 0, 3/32), (-2, 1, 2/32), (-1, 1, 4/32), (0, 1, 5/32),
   (1, 1, 4/32), (2, 1, 2/32), (-1, 2, 2/32), (0, 2, 3/32), (1, 2, 2/32)]

/-- Sierra-2 kernel weights. -/
def sierra2Kernel : Kernel :=
  [(1, 0, 4/16), (2, 0, 3/16), (-2, 1, 1/16), (-1, 1, 2/16), (0, 1, 3/16),
   (1, 1, 2/16), (2, 1, 1/16)]

/-- Sierra-2-4A kernel weights. -/
def sierra24aKernel : Kernel := [(1, 0, 2/4), (-1, 1, 1/4), (0, 1, 1/4)]

/-- Atkinson kernel weights (authentically summing to 3/4). -/
def atkinsonKernel : Kernel :=
  [(1, 0, 1/8), (2, 0, 1/8), (-1, 1, 1/8), (0, 1, 1/8), (1, 1, 1/8), (0, 2, 1/8)]

/-- Modelled from the spec: ImageMagick's Riemersma dither is an external
error-diffusion variant; the spec describes all error-diffusion kernels
uniformly (raster order, fixed forward weights) without giving Riemersma's
weights, so it is modelled as forward error diffusion with unit weight.
No claim below depends on the specific weights. -/
def riemersmaKernel : Kernel := [(1, 0, 1)]

/-- Add an error contribution at one store position. -/
def storeAdd (s : ErrStore) (px py : ℕ) (e : ErrV) : ErrStore :=
  fun x y =>
    if x = px ∧ y = py then
      let v := s x y
      ⟨v.r + e.r, v.g + e.g, v.b + e.b⟩
    else s x y

/-- Distribute one pixel's quantization error over the kernel's
neighbourhood, skipping positions outside the image width. -/
def diffuse (kern : Kernel) (w x y : ℕ) (e : ErrV) (s : ErrStore) : ErrStore :=
  kern.foldl
    (fun st d =>
      let nx : ℤ := (x : ℤ) + d.1
      if 0 ≤ nx ∧ nx < (w : ℤ) then storeAdd st nx.toNat (y + d.2.1) (ErrV.scale d.2.2 e)
      else st)
    s

/-- The raster-order list of all in-bounds pixel positions. -/
def rasterPositions (w h : ℕ) : List (ℕ × ℕ) :=
  (List.range h).flatMap (fun y => (List.range w).map (fun x => (x, y)))

/-- A pixel adjusted by its accumulated (rounded) pending error. -/
def adjPix (c : RGB) (e : ErrV) : RGB :=
  ⟨c.r + round e.r, c.g + round e.g, c.b + round e.b⟩

/-- The colour emitted at one error-diffusion position: the source pixel
adjusted by the pending error, mapped to the nearest palette colour. -/
def edEmit (pal : List RGB) (pix : ℕ → ℕ → RGB) (s : ErrStore) (x y : ℕ) : RGB :=
  nearestColor pal (adjPix (pix x y) (s x y))

/-- The signed residual (adjusted minus emitted) at one position. -/
def edErr (pal : List RGB) (pix : ℕ → ℕ → RGB) (s : ErrStore) (x y : ℕ) : ErrV :=
  ⟨(((adjPix (pix x y) (s x y)).r - (edEmit pal pix s x y).r : ℤ) : ℚ),
   (((adjPix (pix x y) (s x y)).g - (edEmit pal pix s x y).g : ℤ) : ℚ),
   (((adjPix (pix x y) (s x y)).b - (edEmit pal pix s x y).b : ℤ) : ℚ)⟩

/-- One raster-order error-diffusion pass: at each position, adjust the
source pixel by the pending error, emit the nearest palette colour, and
diffuse the signed residual forward. -/
def edProcess (pal : List RGB) (kern : Kernel) (w : ℕ) (pix : ℕ → ℕ → RGB) :
    List (ℕ × ℕ) → ErrStore → List ((ℕ × ℕ) × RGB)
  | [], _ => []
  | (x, y) :: rest, s =>
    ((x, y), edEmit pal pix s x y) ::
      edProcess pal kern w pix rest (diffuse kern w x y (edErr pal pix s x y) s)

/-- Read one emitted pixel back out of an error-diffusion output list. -/
def edLookup (outs : List ((ℕ × ℕ) × RGB)) (x y : ℕ) : RGB :=
  ((outs.find? (fun q => decide (q.1 = (x, y)))).map (fun q => q.2)).getD black

/-- Modelled from the spec: error-diffusion dithering (the engine behind
both ImageMagick `remap` and the hitherdither diffusion methods, which are
external library code) — process pixels in raster order, emit nearest
palette colours, and propagate the signed quantization error per the
kernel. -/
def errorDiffusionDither (pal : List RGB) (kern : Kernel) (img : Bitmap) : Bitmap :=
  ⟨img.width, img.height, fun x y =>
    edLookup (edProcess pal kern img.width img.pix
      (rasterPositions img.width img.height) (fun _ _ => ErrV.zero)) x y⟩

/-- Modelled from the spec: the "None" pass-through — nearest-colour
mapping with zero error propagation. -/
def ditherNone (pal : List RGB) (img : Bitmap) : Bitmap :=
  ⟨img.width, img.height, fun x y => nearestColor pal (img.pix x y)⟩

/-- Modelled from the spec: ImageMagick `remap(affinity, method)` (external
library code) dispatched on the method strings the source passes to it:
`no` is nearest-colour mapping, the others are error diffusion. -/
def imRemap (method : String) (pal : List RGB) (img : Bitmap) : Bitmap :=
  if method = "no" then ditherNone pal img
  else if method = "riemersma" then errorDiffusionDither pal riemersmaKernel img
  else errorDiffusionDither pal fsKernel img

/-- The kernel chosen by `_apply_hitherdither_error_diffusion_with_palette`
for each hitherdither method name, falling back to Floyd–Steinberg for an
unrecognized internal name as the source's final `else` branch does. -/
def hdKernelOf (name : String) : Kernel :=
  if name = "jjn" then jjnKernel
  else if name = "stucki" then stuckiKernel
  else if name = "burkes" then burkesKernel
  else if name = "sierra3" then sierra3Kernel
  else if name = "sierra2" then sierra2Kernel
  else if name = "sierra2_4a" then sierra24aKernel
  else if name = "atkinson" then atkinsonKernel
  else fsKernel

/-- Source `_apply_hitherdither_error_diffusion_with_palette`. -/
def applyHitherditherErrorDiffusion (pal : List RGB) (m : String) (img : Bitmap) : Bitmap :=
  errorDiffusionDither pal (hdKernelOf (getHitherditherErrorDiffusionMethod m)) img

/-- Source `_apply_ordered_dither_with_palette`. -/
def applyOrderedDither (pal : List RGB) (m : String) (img : Bitmap) : Bitmap :=
  if isYliluomaDither m then yliluomaDither pal img
  else if isClusterDotDither m then clusterDotDither pal img
  else orderedBayerDither pal (getBayerOrder m) img

/-- The in-bounds pixels of a bitmap in raster order. -/
def rasterColors (img : Bitmap) : List RGB :=
  (rasterPositions img.width img.height).map (fun p => img.pix p.1 p.2)

/-- First occurrences of each distinct colour, in raster order. -/
def takeDistinct : List RGB → List RGB → List RGB
  | [], acc => acc.reverse
  | c :: rest, acc =>
    if c ∈ acc then takeDistinct rest acc else takeDistinct rest (c :: acc)

/-- Modelled from the spec: `_extract_palette_from_quantized` calls PIL's
deterministic octree quantization (`method=2`, `dither=0`) and reads the
first `n` palette entries, PIL zero-padding missing entries; the external
octree reduction is abstracted by a deterministic representative-colour
selection (distinct colours in raster order), black-padded to `n` entries.
The claims proved below depend only on this being a deterministic function
of the in-bounds pixels, not on the representative colours chosen. -/
def extractPaletteFromQuantized (img : Bitmap) (n : ℕ) : List RGB :=
  (takeDistinct (rasterColors img) []).take n ++
    List.replicate (n - ((takeDistinct (rasterColors img) []).take n).length) black

/-- The branch structure shared verbatim by `_apply_cga_palette` and
`_apply_ega_palette`: ordered dithers and hitherdither error diffusion go
through hitherdither with the fixed palette, everything else through
ImageMagick remap with `_get_error_diffusion_method`'s result. -/
def paletteDispatch (pal : List RGB) (m : String) (img : Bitmap) : Bitmap :=
  if isOrderedDither m then applyOrderedDither pal m img
  else if isHitherditherErrorDiffusion m then applyHitherditherErrorDiffusion pal m img
  else imRemap (getErrorDiffusionMethod m) pal img

/-- CGA palette 1 (black, cyan, magenta, white), from the source. -/
def cgaPalette1 : List RGB :=
  [⟨0, 0, 0⟩, ⟨0, 255, 255⟩, ⟨255, 0, 255⟩, ⟨255, 255, 255⟩]

/-- CGA palette 2 (black, green, red, yellow), from the source. -/
def cgaPalette2 : List RGB :=
  [⟨0, 0, 0⟩, ⟨0, 255, 0⟩, ⟨255, 0, 0⟩, ⟨255, 255, 0⟩]

/-- The authentic 16-colour EGA palette, from the source. -/
def egaColors : List RGB :=
  [⟨0, 0, 0⟩, ⟨0, 0, 170⟩, ⟨0, 170, 0⟩, ⟨0, 170, 170⟩,
   ⟨170, 0, 0⟩, ⟨170, 0, 170⟩, ⟨170, 85, 0⟩, ⟨170, 170, 170⟩,
   ⟨85, 85, 85⟩, ⟨85, 85, 255⟩, ⟨85, 255, 85⟩, ⟨85, 255, 255⟩,
   ⟨255, 85, 85⟩, ⟨255, 85, 255⟩, ⟨255, 255, 85⟩, ⟨255, 255, 255⟩]

/-- Source `_apply_cga_palette`: validates the palette id (raising
`ValueError` otherwise, modelled as `Except.error`) and dispatches on the
dither method. -/
def applyCgaPalette (img : Bitmap) (m : String) (palette : ℕ) : Except String Bitmap :=
  if palette = 1 then .ok (paletteDispatch cgaPalette1 m img)
  else if palette = 2 then .ok (paletteDispatch cgaPalette2 m img)
  else .error "Palette must be 1 or 2"

/-- Source `_apply_ega_palette`. -/
def applyEgaPalette (img : Bitmap) (m : String) : Bitmap :=
  paletteDispatch egaColors m img

/-- Modelled from the spec: ImageMagick `quantize(number_colors, dither)`
(external library code) — derive an adaptive palette from the image, then
remap the image onto it with the requested dither method. -/
def imQuantize (n : ℕ) (method : String) (img : Bitmap) : Bitmap :=
  imRemap method (extractPaletteFromQuantized img n) img

/-- Source `_apply_vga_palette`: 256-colour adaptive quantization. -/
def applyVgaPalette (img : Bitmap) (m : String) : Bitmap :=
  if isOrderedDither m || isHitherditherErrorDiffusion m then
    if isOrderedDither m then
      applyOrderedDither (extractPaletteFromQuantized img 256) m img
    else applyHitherditherErrorDiffusion (extractPaletteFromQuantized img 256) m img
  else imQuantize 256 (getErrorDiffusionMethod m) img

/-- Source `_apply_pc98_palette`: 16-colour adaptive quantization. -/
def applyPc98Palette (img : Bitmap) (m : String) : Bitmap :=
  if isOrderedDither m || isHitherditherErrorDiffusion m then
    if isOrderedDither m then
      applyOrderedDither (extractPaletteFromQuantized img 16) m img
    else applyHitherditherErrorDiffusion (extractPaletteFromQuantized img 16) m img
  else imQuantize 16 (getErrorDiffusionMethod m) img

/-- Source `_calculate_content_dimensions`: for modes other than `Pad` and
`Fit` the content fills the whole target; otherwise fit within the target
keeping the aspect.  Python computes the aspect comparison and `int(...)`
truncations on floats; they are modelled by exact rational comparison
(`srcW * tH > srcH * tW`) and truncating natural division. -/
def calculateContentDimensions (srcW srcH tW tH : ℕ) (mode : String) : ℕ × ℕ :=
  if ¬(mode = "Pad" ∨ mode = "Fit") then (tW, tH)
  else if srcW * tH > srcH * tW then (tW, srcH * tW / srcW)
  else (srcW * tH / srcH, tH)

/-- Round-half-up division on naturals. -/
def natRoundDiv (a b : ℕ) : ℕ := (2 * a + b) / (2 * b)

/-- Modelled from the spec: ImageMagick's `'{W}x{H}^'` minimum geometry
(external library code) — scale preserving aspect so both dimensions cover
the target, rounding to nearest. -/
def coverDims (srcW srcH tW tH : ℕ) : ℕ × ℕ :=
  if srcW * tH ≥ srcH * tW then (natRoundDiv (srcW * tH) srcH, tH)
  else (tW, natRoundDiv (srcH * tW) srcW)

/-- Modelled from the spec: Wand's centre-gravity `crop` (external library
code) — keep the centred `tW × tH` window (clamped to the image). -/
def cropImage (tW tH : ℕ) (img : Bitmap) : Bitmap :=
  ⟨min img.width tW, min img.height tH, fun x y =>
    img.pix (x + (img.width - min img.width tW) / 2)
      (y + (img.height - min img.height tH) / 2)⟩

/-- Source `_add_padding`: centre the image in a black `tW × tH` canvas
(Wand `extent` with centre gravity). -/
def addPadding (tW tH : ℕ) (img : Bitmap) : Bitmap :=
  ⟨tW, tH, fun x y =>
    if (tW - img.width) / 2 ≤ x ∧ x < (tW - img.width) / 2 + img.width ∧
        (tH - img.height) / 2 ≤ y ∧ y < (tH - img.height) / 2 + img.height then
      img.pix (x - (tW - img.width) / 2) (y - (tH - img.height) / 2)
    else black⟩

/-- A smooth resampling filter (the Lanczos resizes of the source are
external ImageMagick code): any function returning a bitmap of the
requested dimensions.  The pipeline below is parameterized by it and the
theorems quantify over it. -/
structure Resampler where
  f : ℕ → ℕ → Bitmap → Bitmap
  width_eq : ∀ w h img, (f w h img).width = w
  height_eq : ∀ w h img, (f w h img).height = h

/-- Modelled from the spec: a nearest-neighbour (`point` filter) resize;
sampling an empty source yields black. -/
def resizePoint (w h : ℕ) (img : Bitmap) : Bitmap :=
  ⟨w, h, fun x y =>
    if img.width = 0 ∨ img.height = 0 then black
    else img.pix (x * img.width / w) (y * img.height / h)⟩

/-- The nearest-neighbour resampler, used to witness `Resampler`. -/
def pointResampler : Resampler :=
  ⟨resizePoint, fun _ _ _ => rfl, fun _ _ _ => rfl⟩

/-- The bitmap that `apply_retro_conversion` hands to the palette/dither
conversion function: the step-2 resize of the source (cover-and-crop for
`Crop`, direct target-size resize for `Stretch`, content-size resize
otherwise). -/
def ditherInput (rs : Resampler) (tW tH : ℕ) (mode : String) (img : Bitmap) : Bitmap :=
  if mode = "Crop" then
    cropImage tW tH
      (rs.f (coverDims img.width img.height tW tH).1
        (coverDims img.width img.height tW tH).2 img)
  else if mode = "Stretch" then rs.f tW tH img
  else
    rs.f (calculateContentDimensions img.width img.height tW tH mode).1
      (calculateContentDimensions img.width img.height tW tH mode).2 img

/-- Source `apply_retro_conversion`: compute content dimensions, resize,
apply the palette conversion with dithering to the resized content, and
pad to the full target frame only in `Pad` mode when the content is
smaller than the target. -/
def applyRetroConversion (rs : Resampler) (conv : Bitmap → String → Except String Bitmap)
    (tW tH : ℕ) (mode m : String) (img : Bitmap) : Except String Bitmap :=
  match conv (ditherInput rs tW tH mode img) m with
  | .error e => .error e
  | .ok d =>
    if mode = "Pad" ∧
        ((calculateContentDimensions img.width img.height tW tH mode).1 ≠ tW ∨
          (calculateContentDimensions img.width img.height tW tH mode).2 ≠ tH) then
      .ok (addPadding tW tH d)
    else .ok d

/-- Source `convert_to_cga_with_par`: CGA at 4:3, target 320×240. -/
def convertToCgaWithPar (rs : Resampler) (palette : ℕ) (mode m : String)
    (img : Bitmap) : Except String Bitmap :=
  applyRetroConversion rs (fun x d => applyCgaPalette x d palette) 320 240 mode m img

/-- Source `convert_to_ega_with_par`: EGA at 4:3, target 640×480. -/
def convertToEgaWithPar (rs : Resampler) (mode m : String) (img : Bitmap) :
    Except String Bitmap :=
  applyRetroConversion rs (fun x d => .ok (applyEgaPalette x d)) 640 480 mode m img

/-- Source `convert_to_vga_with_par`: VGA, target 640×480. -/
def convertToVgaWithPar (rs : Resampler) (mode m : String) (img : Bitmap) :
    Except String Bitmap :=
  applyRetroConversion rs (fun x d => .ok (applyVgaPalette x d)) 640 480 mode m img

/-- Source `convert_to_pc98_with_par`: PC-98, target 640×480. -/
def convertToPc98WithPar (rs : Resampler) (mode m : String) (img : Bitmap) :
    Except String Bitmap :=
  applyRetroConversion rs (fun x d => .ok (applyPc98Palette x d)) 640 480 mode m img

/-- A host image tensor `[batch, height, width, channels]` with rational
values (Python stores IEEE floats; the concrete inputs used below are
exactly representable and far from rounding boundaries). -/
structure Tensor where
  batch : ℕ
  height : ℕ
  width : ℕ
  channels : ℕ
  val : ℕ → ℕ → ℕ → ℕ → ℚ

/-- Observational equality of tensors. -/
def Tensor.Eqv (t1 t2 : Tensor) : Prop :=
  t1.batch = t2.batch ∧ t1.height = t2.height ∧ t1.width = t2.width ∧
    t1.channels = t2.channels ∧
    ∀ b y x c, b < t1.batch → y < t1.height → x < t1.width → c < t1.channels →
      t1.val b y x c = t2.val b y x c

/-- numpy's `(v * 255).astype(np.uint8)` for `v ∈ [0, 1]`: truncation. -/
def to8bit (q : ℚ) : ℕ := (Int.floor (q * 255)).toNat

/-- PIL's exact `MULDIV255` rounding blend step: `round(a * b / 255)`
computed as `((t >> 8) + t) >> 8` with `t = a * b + 128`. -/
def muldiv255 (a b : ℕ) : ℕ := ((a * b + 128) / 256 + (a * b + 128)) / 256

/-- An intermediate 8-bit multi-channel image (the numpy array between the
scaling cast and the PIL compositing). -/
structure ByteImage where
  width : ℕ
  height : ℕ
  px : ℕ → ℕ → ℕ → ℕ

/-- The `(tensor[0] * 255).astype(np.uint8)` stage of `tensor_to_wand`:
batch element 0, channels scaled to 8-bit by truncation. -/
def scaleTo8bit (t : Tensor) : ByteImage :=
  ⟨t.width, t.height, fun x y c => to8bit (t.val 0 y x c)⟩

/-- The `rgb_img.paste(pil_img, mask=alpha)` stage onto a black background:
PIL blends each channel as `MULDIV255(bg, 255 - a) + MULDIV255(fg, a)`,
which with a black background is `MULDIV255(fg, a)`. -/
def compositeOnBlack (bi : ByteImage) : Bitmap :=
  ⟨bi.width, bi.height, fun x y =>
    ⟨(muldiv255 (bi.px x y 0) (bi.px x y 3) : ℤ),
     (muldiv255 (bi.px x y 1) (bi.px x y 3) : ℤ),
     (muldiv255 (bi.px x y 2) (bi.px x y 3) : ℤ)⟩⟩

/-- Source `tensor_to_wand` (`image_to_retro.py`): take the first batch
element, scale to 8-bit integers, and for 4-channel input composite the
8-bit RGBA onto a solid black background. -/
def tensorToWand (t : Tensor) : Bitmap :=
  if t.channels = 4 then compositeOnBlack (scaleTo8bit t)
  else
    ⟨t.width, t.height, fun x y =>
      ⟨(to8bit (t.val 0 y x 0) : ℤ), (to8bit (t.val 0 y x 1) : ℤ),
       (to8bit (t.val 0 y x 2) : ℤ)⟩⟩

/-- The per-output-type dispatch of `ImageToRetro.image_to_retro`. -/
def convertByType (rs : Resampler) (outputType mode m : String) (img : Bitmap) :
    Except String Bitmap :=
  if outputType = "VGA" then convertToVgaWithPar rs mode m img
  else if outputType = "EGA" then convertToEgaWithPar rs mode m img
  else if outputType = "CGA (Cyan/Magenta/White)" then convertToCgaWithPar rs 1 mode m img
  else if outputType = "CGA (Green/Red/Yellow)" then convertToCgaWithPar rs 2 mode m img
  else if outputType = "PC-98" then convertToPc98WithPar rs mode m img
  else .error ("Unknown output type: " ++ outputType)

/-- Source `ImageToRetro.image_to_retro` up to (excluding) the final
`wand_to_tensor` encode: dispatch on the output type, convert, and apply
the integer `point`-filter upscale when the multiplier exceeds 1. -/
def imageToRetroImg (rs : Resampler) (outputType mode m : String) (scale : ℕ)
    (t : Tensor) : Except String Bitmap :=
  match convertByType rs outputType mode m (tensorToWand t) with
  | .error e => .error e
  | .ok b => .ok (if scale > 1 then resizePoint (b.width * scale) (b.height * scale) b else b)

/-- Nearest-neighbour upscale of a bitmap by an integer factor. -/
def nnUpscale (k : ℕ) (img : Bitmap) : Bitmap :=
  resizePoint (img.width * k) (img.height * k) img

/-- Equivalence of conversion results: identical errors, or observationally
equal bitmaps. -/
def ExceptBitmapEqv : Except String Bitmap → Except String Bitmap → Prop
  | .error e1, .error e2 => e1 = e2
  | .ok b1, .ok b2 => Bitmap.Eqv b1 b2
  | _, _ => False

/-- A resampler that respects observational bitmap equality (any
deterministic filter that reads only in-bounds pixels does). -/
def Resampler.Respects (rs : Resampler) : Prop :=
  ∀ w h a b, Bitmap.Eqv a b → Bitmap.Eqv (rs.f w h a) (rs.f w h b)

/-- The CGA profile's native resolution (spec §6: 320×200). -/
def cgaNativeResolution : ℕ × ℕ := (320, 200)

/-- Modelled from the spec: the content-dimension rule as the claim states
it, with round-to-nearest (`round(targetW / inputAspect)` and
`round(targetH * inputAspect)`). -/
def specContentDimensionsRound (srcW srcH tW tH : ℕ) : ℕ × ℕ :=
  if (tW : ℚ) / (tH : ℚ) < (srcW : ℚ) / (srcH : ℚ) then
    (tW, (round ((tW : ℚ) / ((srcW : ℚ) / (srcH : ℚ)))).toNat)
  else ((round ((tH : ℚ) * ((srcW : ℚ) / (srcH : ℚ)))).toNat, tH)

/-- Modelled from the spec (amended): the content-dimension rule with
truncation (floor) in place of round-to-nearest. -/
def specContentDimensionsFloor (srcW srcH tW tH : ℕ) : ℕ × ℕ :=
  if (tW : ℚ) / (tH : ℚ) < (srcW : ℚ) / (srcH : ℚ) then
    (tW, Nat.floor ((tW : ℚ) / ((srcW : ℚ) / (srcH : ℚ))))
  else (Nat.floor ((tH : ℚ) * ((srcW : ℚ) / (srcH : ℚ))), tH)

/-- Modelled from the claim: `tensor_to_wand` as C9 words it, compositing
the RGBA image onto black in float space before scaling to 8-bit. -/
def specTensorCompositeFirst (t : Tensor) : Bitmap :=
  if t.channels = 4 then
    ⟨t.width, t.height, fun x y =>
      ⟨(to8bit (t.val 0 y x 0 * t.val 0 y x 3) : ℤ),
       (to8bit (t.val 0 y x 1 * t.val 0 y x 3) : ℤ),
       (to8bit (t.val 0 y x 2 * t.val 0 y x 3) : ℤ)⟩⟩
  else
    ⟨t.width, t.height, fun x y =>
      ⟨(to8bit (t.val 0 y x 0) : ℤ), (to8bit (t.val 0 y x 1) : ℤ),
       (to8bit (t.val 0 y x 2) : ℤ)⟩⟩

/-- Within-one-pixel aspect preservation of the content-fit rule: the
content dimensions are the integer truncation of exact aspect-preserving
dimensions inside the target. -/
def AspectFitApprox (srcW srcH tW tH cw ch : ℕ) : Prop :=
  (cw = tW ∧ srcW * ch ≤ tW * srcH ∧ tW * srcH < srcW * (ch + 1)) ∨
  (ch = tH ∧ srcH * cw ≤ tH * srcW ∧ tH * srcW < srcH * (cw + 1))

/-- A 640×480 solid-red test bitmap. -/
def img640 : Bitmap := ⟨640, 480, fun _ _ => ⟨255, 0, 0⟩⟩

/-- A small 2×2 test bitmap with assorted colours. -/
def imgSmall : Bitmap :=
  ⟨2, 2, fun x y =>
    if x = 0 ∧ y = 0 then ⟨10, 200, 30⟩
    else if x = 1 ∧ y = 0 then ⟨250, 12, 13⟩
    else if x = 0 ∧ y = 1 then ⟨90, 90, 90⟩
    else ⟨0, 255, 200⟩⟩

/-- A 1×1×1×4 tensor whose red and alpha channels are exactly 200/255:
quantize-then-composite and composite-then-quantize differ on it. -/
def tensorC9 : Tensor :=
  ⟨1, 1, 1, 4, fun _ _ _ c => if c = 0 ∨ c = 3 then (200 : ℚ) / 255 else 0⟩

/-- A 1×1×1×3 mid-grey tensor. -/
def tensorGrey : Tensor :=
  ⟨1, 1, 1, 3, fun _ _ _ _ => (1 : ℚ) / 2⟩

/-- A 2×2×2×3 test tensor (batch 2) whose second batch element differs. -/
def tensorBatch2 : Tensor :=
  ⟨2, 2, 2, 3, fun b y x c =>
    if b = 0 then (if c = 0 then (x : ℚ) / 2 else (y : ℚ) / 2) else 1⟩

/-- `tensorBatch2` with the ignored second batch element zeroed. -/
def tensorBatch2Alt : Tensor :=
  ⟨2, 2, 2, 3, fun b y x c =>
    if b = 0 then (if c = 0 then (x : ℚ) / 2 else (y : ℚ) / 2) else 0⟩

end ToRetro

namespace ToRetro

theorem minBy_mem {α : Type} (key : α → ℤ) :
    ∀ (l : List α) (b : α), minBy key b l ∈ b :: l := by
  intro l
  induction l with
  | nil => intro b; simp [minBy]
  | cons q l ih =>
    intro b
    simp only [minBy, List.foldl_cons]
    rcases List.mem_cons.mp (ih (if key q < key b then q else b)) with h | h
    · rw [minBy] at h
      rw [h]
      split
      · exact List.mem_cons_of_mem _ (List.mem_cons_self _ _)
      · exact List.mem_cons_self _ _
    · exact List.mem_cons_of_mem _ (List.mem_cons_of_mem _ h)

theorem minBy_le {α : Type} (key : α → ℤ) :
    ∀ (l : List α) (b : α),
      key (minBy key b l) ≤ key b ∧ ∀ q ∈ l, key (minBy key b l) ≤ key q := by
  intro l
  induction l with
  | nil => intro b; simp [minBy]
  | cons q l ih =>
    intro b
    have h := ih (if key q < key b then q else b)
    rw [minBy] at h ⊢
    simp only [List.foldl_cons]
    constructor
    · refine le_trans h.1 ?_
      split
      · exact le_of_lt (by assumption)
      · exact le_refl _
    · intro r hr
      rcases List.mem_cons.mp hr with rfl | hr
      · refine le_trans h.1 ?_
        split
        · exact le_refl _
        · exact le_of_not_lt (by assumption)
      · exact h.2 r hr

theorem nearestColor_mem {pal : List RGB} (h : pal ≠ []) (c : RGB) :
    nearestColor pal c ∈ pal := by
  cases pal with
  | nil => exact absurd rfl h
  | cons p ps => exact minBy_mem (dist2 c) ps p

theorem dist2_nonneg (c d : RGB) : 0 ≤ dist2 c d := by
  unfold dist2
  positivity

theorem dist2_self (c : RGB) : dist2 c c = 0 := by
  simp [dist2]

theorem dist2_eq_zero {c d : RGB} (h : dist2 c d = 0) : c = d := by
  obtain ⟨r1, g1, b1⟩ := c
  obtain ⟨r2, g2, b2⟩ := d
  simp only [dist2] at h
  have h1 : (r1 - r2) ^ 2 = 0 := by
    nlinarith [sq_nonneg (r1 - r2), sq_nonneg (g1 - g2), sq_nonneg (b1 - b2)]
  have h2 : (g1 - g2) ^ 2 = 0 := by
    nlinarith [sq_nonneg (r1 - r2), sq_nonneg (g1 - g2), sq_nonneg (b1 - b2)]
  have h3 : (b1 - b2) ^ 2 = 0 := by
    nlinarith [sq_nonneg (r1 - r2), sq_nonneg (g1 - g2), sq_nonneg (b1 - b2)]
  have e1 : r1 = r2 := by nlinarith [h1]
  have e2 : g1 = g2 := by nlinarith [h2]
  have e3 : b1 = b2 := by nlinarith [h3]
  simp [e1, e2, e3]

theorem nearestColor_of_mem {pal : List RGB} {c : RGB} (h : c ∈ pal) :
    nearestColor pal c = c := by
  cases pal with
  | nil => exact absurd h (List.not_mem_nil c)
  | cons p ps =>
    have hmin := minBy_le (dist2 c) ps p
    have hle : dist2 c (nearestColor (p :: ps) c) ≤ 0 := by
      rcases List.mem_cons.mp h with rfl | h
      · simpa [nearestColor, dist2_self] using hmin.1
      · simpa [nearestColor, dist2_self] using hmin.2 c h
    have hz : dist2 c (nearestColor (p :: ps) c) = 0 :=
      le_antisymm hle (dist2_nonneg _ _)
    exact (dist2_eq_zero hz).symm

theorem Bitmap.Eqv.refl (a : Bitmap) : Bitmap.Eqv a a :=
  ⟨rfl, rfl, fun _ _ _ _ => rfl⟩

theorem natRoundDiv_ge {a b t : ℕ} (hb : 0 < b) (h : t * b ≤ a) :
    t ≤ natRoundDiv a b := by
  unfold natRoundDiv
  rw [Nat.le_div_iff_mul_le (by omega)]
  calc t * (2 * b) = 2 * (t * b) := by ring
  _ ≤ 2 * a := by omega
  _ ≤ 2 * a + b := by omega

theorem tableContains_eq_false {α : Type} {tbl : List (String × α)} {m : String}
    (h : m ∉ tbl.map Prod.fst) : tableContains tbl m = false := by
  unfold tableContains
  rw [List.any_eq_false]
  intro e he
  simp only [beq_iff_eq]
  intro heq
  exact h (List.mem_map.mpr ⟨e, he, heq⟩)

theorem tableGetD_of_not_mem {α : Type} {tbl : List (String × α)} {m : String}
    (h : m ∉ tbl.map Prod.fst) (d : α) : tableGetD tbl m d = d := by
  unfold tableGetD
  have hf : tbl.find? (fun e => e.1 == m) = none := by
    rw [List.find?_eq_none]
    intro e he
    simp only [beq_iff_eq]
    intro heq
    exact h (List.mem_map.mpr ⟨e, he, heq⟩)
  rw [hf]

/-- C7: applying the "None" dither method (nearest-colour mapping with no
error propagation, the ImageMagick `no` remap path) twice with the same
non-empty palette yields the same bitmap as applying it once. -/
theorem noneDitherIdempotent (pal : List RGB) (img : Bitmap) (h : pal ≠ []) :
    imRemap "no" pal (imRemap "no" pal img) = imRemap "no" pal img := by
  show ditherNone pal (ditherNone pal img) = ditherNone pal img
  unfold ditherNone
  congr 1
  funext x y
  exact nearestColor_of_mem (nearestColor_mem h (img.pix x y))

theorem noneDitherIdempotentWitness :
    cgaPalette1 ≠ ([] : List RGB) ∧
      imRemap "no" cgaPalette1 (imRemap "no" cgaPalette1 imgSmall) =
        imRemap "no" cgaPalette1 imgSmall :=
  ⟨by decide, noneDitherIdempotent cgaPalette1 imgSmall (by decide)⟩

/-- C2 counterexample: the unrecognized dither-method name
`"Ostromoukhov"` does not fail — `_get_error_diffusion_method` silently
falls back to `floyd_steinberg` and `_apply_cga_palette` succeeds with
that method, producing output. -/
theorem unknownMethodNoError :
    getErrorDiffusionMethod "Ostromoukhov" = "floyd_steinberg" ∧
      applyCgaPalette imgSmall "Ostromoukhov" 1 =
        .ok (imRemap "floyd_steinberg" cgaPalette1 imgSmall) :=
  ⟨rfl, rfl⟩

/-- C2 amended: a conversion call whose dither-method name is not one of
the recognized method names does not raise any error; it is silently
treated as Floyd–Steinberg error diffusion through the ImageMagick branch
and produces output. -/
theorem unknownMethodFallsBack (img : Bitmap) (m : String)
    (h : m ∉ recognizedDitherMethods) :
    applyCgaPalette img m 1 = .ok (imRemap "floyd_steinberg" cgaPalette1 img) ∧
      applyCgaPalette img m 2 = .ok (imRemap "floyd_steinberg" cgaPalette2 img) ∧
      applyEgaPalette img m = imRemap "floyd_steinberg" egaColors img := by
  have hsplit : m ∉ ERROR_DIFFUSION_METHODS.map Prod.fst ∧
      m ∉ YLILUOMA_DITHER.map Prod.fst ∧ m ∉ CLUSTER_DOT_DITHER.map Prod.fst ∧
      m ∉ ORDERED_DITHER_MAPS.map Prod.fst := by
    unfold recognizedDitherMethods at h
    refine ⟨fun hm => h ?_, fun hm => h ?_, fun hm => h ?_, fun hm => h ?_⟩ <;>
      simp only [List.mem_append] <;> tauto
  have him : m ∉ IMAGEMAGICK_ERROR_DIFFUSION.map Prod.fst := by
    intro hm
    exact hsplit.1 (by
      unfold ERROR_DIFFUSION_METHODS
      rw [List.map_append, List.mem_append]
      exact Or.inl hm)
  have hhd : m ∉ HITHERDITHER_ERROR_DIFFUSION.map Prod.fst := by
    intro hm
    exact hsplit.1 (by
      unfold ERROR_DIFFUSION_METHODS
      rw [List.map_append, List.mem_append]
      exact Or.inr hm)
  have hord : isOrderedDither m = false := by
    unfold isOrderedDither
    rw [tableContains_eq_false hsplit.2.2.2, tableContains_eq_false hsplit.2.1,
      tableContains_eq_false hsplit.2.2.1]
    rfl
  have hhdc : isHitherditherErrorDiffusion m = false := by
    unfold isHitherditherErrorDiffusion
    exact tableContains_eq_false hhd
  have hget : getErrorDiffusionMethod m = "floyd_steinberg" := by
    unfold getErrorDiffusionMethod
    exact tableGetD_of_not_mem him _
  have hdisp : ∀ pal, paletteDispatch pal m img = imRemap "floyd_steinberg" pal img := by
    intro pal
    unfold paletteDispatch
    rw [hord, hhdc, hget]
    rfl
  refine ⟨?_, ?_, ?_⟩
  · show Except.ok (paletteDispatch cgaPalette1 m img) = _
    rw [hdisp]
  · show Except.ok (paletteDispatch cgaPalette2 m img) = _
    rw [hdisp]
  · show paletteDispatch egaColors m img = _
    rw [hdisp]

theorem unknownMethodFallsBackWitness :
    applyCgaPalette imgSmall "Sierpinski" 1 =
        .ok (imRemap "floyd_steinberg" cgaPalette1 imgSmall) ∧
      applyCgaPalette imgSmall "Sierpinski" 2 =
        .ok (imRemap "floyd_steinberg" cgaPalette2 imgSmall) ∧
      applyEgaPalette imgSmall "Sierpinski" =
        imRemap "floyd_steinberg" egaColors imgSmall :=
  unknownMethodFallsBack imgSmall "Sierpinski" (by decide)

/-- C3 counterexample: for a 427×240 source and the CGA 320×240 target
(input wider than target), the code computes content height
`int(320 / (427/240)) = 179`, while the claim's round-to-nearest rule
gives `round(179.859...) = 180`. -/
theorem contentDimsNotRounded :
    calculateContentDimensions 427 240 320 240 "Pad" = (320, 179) ∧
      specContentDimensionsRound 427 240 320 240 = (320, 180) ∧
      ((320, 179) : ℕ × ℕ) ≠ (320, 180) := by
  refine ⟨by decide, ?_, by decide⟩
  unfold specContentDimensionsRound
  rw [if_pos (by norm_num)]
  have hfl : round ((320 : ℚ) / ((427 : ℚ) / (240 : ℚ))) = 180 := by
    rw [round_eq, Int.floor_eq_iff]
    constructor
    · norm_num
    · norm_num
  push_cast
  rw [hfl]
  rfl

/-- C3 amended: in Pad and Fit modes the content dimensions follow the
claimed aspect-fit rule with truncation toward zero (floor) in place of
round-to-nearest: if srcW/srcH > targetW/targetH then content =
(targetW, floor(targetW / inputAspect)), else content =
(floor(targetH * inputAspect), targetH). -/
theorem contentDimsFloorRule (srcW srcH tW tH : ℕ) (hsW : 0 < srcW)
    (hsH : 0 < srcH) (htW : 0 < tW) (htH : 0 < tH) (mode : String)
    (hmode : mode = "Pad" ∨ mode = "Fit") :
    calculateContentDimensions srcW srcH tW tH mode =
      specContentDimensionsFloor srcW srcH tW tH := by
  have hsHQ : (0 : ℚ) < (srcH : ℚ) := by exact_mod_cast hsH
  have htHQ : (0 : ℚ) < (tH : ℚ) := by exact_mod_cast htH
  have hcond : ((tW : ℚ) / (tH : ℚ) < (srcW : ℚ) / (srcH : ℚ)) ↔
      srcH * tW < srcW * tH := by
    rw [div_lt_div_iff₀ htHQ hsHQ, mul_comm srcH tW]
    constructor
    · intro hq
      exact_mod_cast hq
    · intro hn
      exact_mod_cast hn
  have hval1 : (tW : ℚ) / ((srcW : ℚ) / (srcH : ℚ)) =
      ((tW * srcH : ℕ) : ℚ) / ((srcW : ℕ) : ℚ) := by
    push_cast
    field_simp
  have hval2 : (tH : ℚ) * ((srcW : ℚ) / (srcH : ℚ)) =
      ((srcW * tH : ℕ) : ℚ) / ((srcH : ℕ) : ℚ) := by
    push_cast
    field_simp
    ring
  have hnotmode : ¬¬(mode = "Pad" ∨ mode = "Fit") := not_not_intro hmode
  unfold calculateContentDimensions specContentDimensionsFloor
  rw [if_neg hnotmode]
  by_cases hc : srcW * tH > srcH * tW
  · rw [if_pos hc, if_pos (hcond.mpr hc)]
    rw [hval1, Nat.floor_div_nat, Nat.floor_natCast, mul_comm srcH tW]
  · rw [if_neg hc, if_neg (fun hq => hc (hcond.mp hq))]
    rw [hval2, Nat.floor_div_nat, Nat.floor_natCast]

theorem contentDimsFloorRuleWitness :
    calculateContentDimensions 427 240 320 240 "Fit" =
      specContentDimensionsFloor 427 240 320 240 :=
  contentDimsFloorRule 427 240 320 240 (by decide) (by decide) (by decide)
    (by decide) "Fit" (Or.inr rfl)

theorem contentDims_of_not_padfit {srcW srcH tW tH : ℕ} {mode : String}
    (h : ¬(mode = "Pad" ∨ mode = "Fit")) :
    calculateContentDimensions srcW srcH tW tH mode = (tW, tH) := by
  unfold calculateContentDimensions
  rw [if_pos h]

theorem coverDims_ge (srcW srcH tW tH : ℕ) (hsW : 0 < srcW) (hsH : 0 < srcH) :
    tW ≤ (coverDims srcW srcH tW tH).1 ∧ tH ≤ (coverDims srcW srcH tW tH).2 := by
  unfold coverDims
  by_cases hc : srcW * tH ≥ srcH * tW
  · rw [if_pos hc]
    refine ⟨natRoundDiv_ge hsH ?_, le_refl tH⟩
    calc tW * srcH = srcH * tW := by ring
    _ ≤ srcW * tH := hc
  · rw [if_neg hc]
    refine ⟨le_refl tW, natRoundDiv_ge hsW ?_⟩
    have hlt : srcW * tH < srcH * tW := lt_of_not_ge hc
    calc tH * srcW = srcW * tH := by ring
    _ ≤ srcH * tW := le_of_lt hlt

/-- C1 counterexample: for a 640×480 source converted through the CGA
profile in Stretch mode, the bitmap handed to the quantize/dither step is
the 320×240 display-shaped content resize, not the CGA native 320×200
grid; the pipeline contains no pixel-aspect pre/post distortion or
native-resolution snap around the dither step. -/
theorem ditherAtDisplayGrid :
    convertToCgaWithPar pointResampler 1 "Stretch" "None" img640 =
        .ok (paletteDispatch cgaPalette1 "None"
          (ditherInput pointResampler 320 240 "Stretch" img640)) ∧
      ((ditherInput pointResampler 320 240 "Stretch" img640).width,
        (ditherInput pointResampler 320 240 "Stretch" img640).height) = (320, 240) ∧
      ((320, 240) : ℕ × ℕ) ≠ cgaNativeResolution := by
  exact ⟨rfl, rfl, by decide⟩

/-- C1 amended: the quantize/dither step operates on the step-2 resized
content bitmap, whose dimensions are exactly the computed content
dimensions within the 4:3 target frame (for CGA up to 320×240) for every
fit mode; there is no pixel-aspect pre-distortion, nearest-neighbour snap
to native resolution, or pixel-aspect post-distortion in the pipeline. -/
theorem ditherInputAtContentDims (rs : Resampler) (tW tH : ℕ) (mode : String)
    (img : Bitmap) (hsW : 0 < img.width) (hsH : 0 < img.height) :
    (ditherInput rs tW tH mode img).width =
        (calculateContentDimensions img.width img.height tW tH mode).1 ∧
      (ditherInput rs tW tH mode img).height =
        (calculateContentDimensions img.width img.height tW tH mode).2 := by
  by_cases hcrop : mode = "Crop"
  · subst hcrop
    rw [contentDims_of_not_padfit (by decide)]
    unfold ditherInput
    rw [if_pos rfl]
    have hge := coverDims_ge img.width img.height tW tH hsW hsH
    constructor
    · show min (rs.f (coverDims img.width img.height tW tH).1
        (coverDims img.width img.height tW tH).2 img).width tW = tW
      rw [rs.width_eq]
      exact min_eq_right hge.1
    · show min (rs.f (coverDims img.width img.height tW tH).1
        (coverDims img.width img.height tW tH).2 img).height tH = tH
      rw [rs.height_eq]
      exact min_eq_right hge.2
  · by_cases hstretch : mode = "Stretch"
    · subst hstretch
      rw [contentDims_of_not_padfit (by decide)]
      unfold ditherInput
      rw [if_neg (by decide), if_pos rfl]
      exact ⟨rs.width_eq _ _ _, rs.height_eq _ _ _⟩
    · unfold ditherInput
      rw [if_neg hcrop, if_neg hstretch]
      exact ⟨rs.width_eq _ _ _, rs.height_eq _ _ _⟩

theorem ditherInputAtContentDimsWitness :
    (ditherInput pointResampler 320 240 "Crop" img640).width =
        (calculateContentDimensions img640.width img640.height 320 240 "Crop").1 ∧
      (ditherInput pointResampler 320 240 "Crop" img640).height =
        (calculateContentDimensions img640.width img640.height 320 240 "Crop").2 :=
  ditherInputAtContentDims pointResampler 320 240 "Crop" img640 (by decide) (by decide)

/-- C10: calling the pipeline with any aspect-mode string other than
`Pad`, `Fit` or `Crop` (including unrecognized strings) behaves exactly
like `Stretch`: the content is resized directly to the full target
dimensions with the smooth filter, the conversion is applied, and no
padding step runs. -/
theorem unknownAspectModeIsStretch (rs : Resampler)
    (conv : Bitmap → String → Except String Bitmap) (tW tH : ℕ) (m : String)
    (img : Bitmap) (mode : String) (h1 : mode ≠ "Pad") (h2 : mode ≠ "Fit")
    (h3 : mode ≠ "Crop") :
    applyRetroConversion rs conv tW tH mode m img =
        applyRetroConversion rs conv tW tH "Stretch" m img ∧
      applyRetroConversion rs conv tW tH "Stretch" m img = conv (rs.f tW tH img) m := by
  have hnm : ¬(mode = "Pad" ∨ mode = "Fit") := by
    intro h
    rcases h with h | h
    exacts [h1 h, h2 h]
  have hdi : ditherInput rs tW tH mode img = rs.f tW tH img := by
    unfold ditherInput
    rw [if_neg h3]
    by_cases hs : mode = "Stretch"
    · rw [if_pos hs]
    · rw [if_neg hs, contentDims_of_not_padfit hnm]
  have hdis : ditherInput rs tW tH "Stretch" img = rs.f tW tH img := by
    unfold ditherInput
    rw [if_neg (by decide), if_pos rfl]
  have key : ∀ md, md ≠ "Pad" → ditherInput rs tW tH md img = rs.f tW tH img →
      applyRetroConversion rs conv tW tH md m img = conv (rs.f tW tH img) m := by
    intro md hp hdieq
    unfold applyRetroConversion
    rw [hdieq]
    cases hc : conv (rs.f tW tH img) m with
    | error e => rfl
    | ok d =>
      show (if md = "Pad" ∧
          ((calculateContentDimensions img.width img.height tW tH md).1 ≠ tW ∨
            (calculateContentDimensions img.width img.height tW tH md).2 ≠ tH) then
          Except.ok (addPadding tW tH d) else Except.ok d) = Except.ok d
      rw [if_neg (fun hcc => hp hcc.1)]
  have k1 := key mode h1 hdi
  have k2 := key "Stretch" (by decide) hdis
  exact ⟨k1.trans k2.symm, k2⟩

theorem unknownAspectModeIsStretchWitness :
    applyRetroConversion pointResampler (fun x d => applyCgaPalette x d 1) 320 240
          "Bogus" "None" imgSmall =
        applyRetroConversion pointResampler (fun x d => applyCgaPalette x d 1) 320 240
          "Stretch" "None" imgSmall ∧
      applyRetroConversion pointResampler (fun x d => applyCgaPalette x d 1) 320 240
          "Stretch" "None" imgSmall =
        applyCgaPalette (pointResampler.f 320 240 imgSmall) "None" 1 :=
  unknownAspectModeIsStretch pointResampler (fun x d => applyCgaPalette x d 1) 320 240
    "None" imgSmall "Bogus" (by decide) (by decide) (by decide)

/-- C9 counterexample: on a 1×1 RGBA tensor with red = alpha = 200/255,
the adapter (which scales to 8-bit first and composites the 8-bit values)
produces red 157, while compositing onto black in float before scaling, as
the claim orders the steps, gives red 156. -/
theorem compositeAfterScale :
    (tensorToWand tensorC9).pix 0 0 = ⟨157, 0, 0⟩ ∧
      (specTensorCompositeFirst tensorC9).pix 0 0 = ⟨156, 0, 0⟩ ∧
      ((⟨157, 0, 0⟩ : RGB) ≠ ⟨156, 0, 0⟩) := by
  have hA : to8bit ((200 : ℚ) / 255) = 200 := by
    unfold to8bit
    have hfl : ⌊((200 : ℚ) / 255 * 255)⌋ = (200 : ℤ) := by norm_num
    rw [hfl]
    rfl
  have hB : to8bit ((0 : ℚ)) = 0 := by
    unfold to8bit
    norm_num
  have hC : to8bit ((200 : ℚ) / 255 * ((200 : ℚ) / 255)) = 156 := by
    unfold to8bit
    have hq : ((200 : ℚ) / 255 * ((200 : ℚ) / 255) * 255) = 40000 / 255 := by ring
    rw [hq]
    have hfl : ⌊((40000 : ℚ) / 255)⌋ = 156 := by
      rw [Int.floor_eq_iff]
      constructor
      · norm_num
      · norm_num
    rw [hfl]
    rfl
  have hD : to8bit ((0 : ℚ) * ((200 : ℚ) / 255)) = 0 := by
    unfold to8bit
    norm_num
  have hv0 : tensorC9.val 0 0 0 0 = (200 : ℚ) / 255 := rfl
  have hv1 : tensorC9.val 0 0 0 1 = (0 : ℚ) := rfl
  have hv2 : tensorC9.val 0 0 0 2 = (0 : ℚ) := rfl
  have hv3 : tensorC9.val 0 0 0 3 = (200 : ℚ) / 255 := rfl
  refine ⟨?_, ?_, by decide⟩
  · have hpix : (tensorToWand tensorC9).pix 0 0 =
        ⟨(muldiv255 (to8bit (tensorC9.val 0 0 0 0)) (to8bit (tensorC9.val 0 0 0 3)) : ℤ),
         (muldiv255 (to8bit (tensorC9.val 0 0 0 1)) (to8bit (tensorC9.val 0 0 0 3)) : ℤ),
         (muldiv255 (to8bit (tensorC9.val 0 0 0 2)) (to8bit (tensorC9.val 0 0 0 3)) : ℤ)⟩ :=
      rfl
    rw [hpix, hv0, hv1, hv2, hv3, hA, hB]
    decide
  · have hpix : (specTensorCompositeFirst tensorC9).pix 0 0 =
        ⟨(to8bit (tensorC9.val 0 0 0 0 * tensorC9.val 0 0 0 3) : ℤ),
         (to8bit (tensorC9.val 0 0 0 1 * tensorC9.val 0 0 0 3) : ℤ),
         (to8bit (tensorC9.val 0 0 0 2 * tensorC9.val 0 0 0 3) : ℤ)⟩ := rfl
    rw [hpix, hv0, hv1, hv2, hv3, hC, hD]
    decide

theorem tensorToWand_eqv {t1 t2 : Tensor} (h3or4 : t1.channels = 3 ∨ t1.channels = 4)
    (hh : t1.height = t2.height) (hw : t1.width = t2.width)
    (hc : t1.channels = t2.channels)
    (hval : ∀ y x c, y < t1.height → x < t1.width → c < t1.channels →
      t1.val 0 y x c = t2.val 0 y x c) :
    Bitmap.Eqv (tensorToWand t1) (tensorToWand t2) := by
  rcases h3or4 with h3 | h4
  · have h3b : t2.channels = 3 := hc ▸ h3
    have hne1 : ¬t1.channels = 4 := by omega
    have hne2 : ¬t2.channels = 4 := by omega
    unfold tensorToWand
    rw [if_neg hne1, if_neg hne2]
    refine ⟨hw, hh, ?_⟩
    intro x y hx hy
    have e0 := hval y x 0 hy hx (by omega)
    have e1 := hval y x 1 hy hx (by omega)
    have e2 := hval y x 2 hy hx (by omega)
    simp only [e0, e1, e2]
  · have h4b : t2.channels = 4 := hc ▸ h4
    unfold tensorToWand
    rw [if_pos h4, if_pos h4b]
    unfold compositeOnBlack scaleTo8bit
    refine ⟨hw, hh, ?_⟩
    intro x y hx hy
    have e0 := hval y x 0 hy hx (by omega)
    have e1 := hval y x 1 hy hx (by omega)
    have e2 := hval y x 2 hy hx (by omega)
    have e3 := hval y x 3 hy hx (by omega)
    simp only [e0, e1, e2, e3]

/-- C9 amended: the boundary adapter consumes only the first batch element
(tensors equal on batch element 0 produce observationally equal bitmaps),
and for 4-channel input it first scales the values to 8-bit integers and
then flattens to 3 channels by compositing the 8-bit RGBA image onto a
solid black background with PIL's rounding blend. -/
theorem tensorAdapterAmended (t1 t2 : Tensor) (h3or4 : t1.channels = 3 ∨ t1.channels = 4)
    (hh : t1.height = t2.height) (hw : t1.width = t2.width)
    (hc : t1.channels = t2.channels)
    (hval : ∀ y x c, y < t1.height → x < t1.width → c < t1.channels →
      t1.val 0 y x c = t2.val 0 y x c) :
    Bitmap.Eqv (tensorToWand t1) (tensorToWand t2) ∧
      (t1.channels = 4 → tensorToWand t1 = compositeOnBlack (scaleTo8bit t1)) := by
  refine ⟨tensorToWand_eqv h3or4 hh hw hc hval, ?_⟩
  intro h4
  unfold tensorToWand
  rw [if_pos h4]

theorem tensorAdapterAmendedWitness :
    Bitmap.Eqv (tensorToWand tensorBatch2) (tensorToWand tensorBatch2Alt) ∧
      (tensorBatch2.channels = 4 →
        tensorToWand tensorBatch2 = compositeOnBlack (scaleTo8bit tensorBatch2)) :=
  tensorAdapterAmended tensorBatch2 tensorBatch2Alt (Or.inl rfl) rfl rfl rfl
    (fun _ _ _ _ _ _ => rfl)

/-- C6: the conversion output produced with scale multiplier k (for k in
[1,10]) is pixel-for-pixel the nearest-neighbour k× upscale of the output
produced with scale multiplier 1, for every input tensor, output type,
aspect mode, dither method, and smooth resampling filter. -/
theorem scaleMultiplierInvariance (rs : Resampler) (outputType mode m : String)
    (t : Tensor) (k : ℕ) (hk1 : 1 ≤ k) (hk10 : k ≤ 10) :
    ExceptBitmapEqv (imageToRetroImg rs outputType mode m k t)
      (Except.map (nnUpscale k) (imageToRetroImg rs outputType mode m 1 t)) := by
  unfold imageToRetroImg
  cases hc : convertByType rs outputType mode m (tensorToWand t) with
  | error e =>
    show ExceptBitmapEqv (Except.error e) (Except.map (nnUpscale k) (Except.error e))
    exact rfl
  | ok b =>
    have hrhs : (if 1 > 1 then resizePoint (b.width * 1) (b.height * 1) b else b) = b := by
      rw [if_neg (by omega)]
    show ExceptBitmapEqv
      (Except.ok (if k > 1 then resizePoint (b.width * k) (b.height * k) b else b))
      (Except.map (nnUpscale k)
        (Except.ok (if 1 > 1 then resizePoint (b.width * 1) (b.height * 1) b else b)))
    rw [hrhs]
    show ExceptBitmapEqv
      (Except.ok (if k > 1 then resizePoint (b.width * k) (b.height * k) b else b))
      (Except.ok (nnUpscale k b))
    by_cases hk : k > 1
    · rw [if_pos hk]
      show Bitmap.Eqv (resizePoint (b.width * k) (b.height * k) b) (nnUpscale k b)
      exact Bitmap.Eqv.refl _
    · have hk1e : k = 1 := by omega
      subst hk1e
      rw [if_neg hk]
      show Bitmap.Eqv b (nnUpscale 1 b)
      refine ⟨(Nat.mul_one b.width).symm, (Nat.mul_one b.height).symm, ?_⟩
      intro x y hx hy
      have hw : ¬(b.width = 0 ∨ b.height = 0) := by omega
      show b.pix x y = (resizePoint (b.width * 1) (b.height * 1) b).pix x y
      unfold resizePoint
      simp only [if_neg hw]
      rw [Nat.mul_one, Nat.mul_one, Nat.mul_div_cancel x (by omega : 0 < b.width),
        Nat.mul_div_cancel y (by omega : 0 < b.height)]

theorem scaleMultiplierInvarianceWitness :
    ExceptBitmapEqv (imageToRetroImg pointResampler "VGA" "Pad" "None" 2 tensorGrey)
      (Except.map (nnUpscale 2)
        (imageToRetroImg pointResampler "VGA" "Pad" "None" 1 tensorGrey)) :=
  scaleMultiplierInvariance pointResampler "VGA" "Pad" "None" tensorGrey 2
    (by decide) (by decide)

end ToRetro

namespace ToRetro

theorem mem_rasterPositions {w h x y : ℕ} :
    (x, y) ∈ rasterPositions w h ↔ x < w ∧ y < h := by
  unfold rasterPositions
  constructor
  · intro hmem
    obtain ⟨yy, hyy, hx⟩ := List.mem_flatMap.mp hmem
    obtain ⟨xx, hxx, heq⟩ := List.mem_map.mp hx
    cases heq
    exact ⟨List.mem_range.mp hxx, List.mem_range.mp hyy⟩
  · rintro ⟨hx, hy⟩
    exact List.mem_flatMap.mpr
      ⟨y, List.mem_range.mpr hy, List.mem_map.mpr ⟨x, List.mem_range.mpr hx, rfl⟩⟩

theorem edProcess_map_fst (pal : List RGB) (kern : Kernel) (w : ℕ)
    (pix : ℕ → ℕ → RGB) :
    ∀ (ps : List (ℕ × ℕ)) (s : ErrStore),
      (edProcess pal kern w pix ps s).map Prod.fst = ps := by
  intro ps
  induction ps with
  | nil => intro s; rfl
  | cons p rest ih =>
    intro s
    obtain ⟨x, y⟩ := p
    simp only [edProcess, List.map_cons]
    rw [ih]

theorem edProcess_snd (pal : List RGB) (kern : Kernel) (w : ℕ)
    (pix : ℕ → ℕ → RGB) :
    ∀ (ps : List (ℕ × ℕ)) (s : ErrStore) (q : (ℕ × ℕ) × RGB),
      q ∈ edProcess pal kern w pix ps s → ∃ a, q.2 = nearestColor pal a := by
  intro ps
  induction ps with
  | nil =>
    intro s q hq
    simp [edProcess] at hq
  | cons p rest ih =>
    intro s q hq
    obtain ⟨x, y⟩ := p
    simp only [edProcess] at hq
    rcases List.mem_cons.mp hq with rfl | hq
    · exact ⟨adjPix (pix x y) (s x y), rfl⟩
    · exact ih _ q hq

theorem find_of_mem {α : Type} (p : α → Bool) :
    ∀ (l : List α), (∃ q ∈ l, p q = true) →
      ∃ r, l.find? p = some r ∧ r ∈ l ∧ p r = true := by
  intro l
  induction l with
  | nil => rintro ⟨q, hq, _⟩; cases hq
  | cons a l ih =>
    rintro ⟨q, hq, hpq⟩
    by_cases hpa : p a = true
    · exact ⟨a, List.find?_cons_of_pos _ hpa, List.mem_cons_self a l, hpa⟩
    · rcases List.mem_cons.mp hq with rfl | hq
      · exact absurd hpq hpa
      · obtain ⟨r, hfind, hmem, hpr⟩ := ih ⟨q, hq, hpq⟩
        refine ⟨r, ?_, List.mem_cons_of_mem a hmem, hpr⟩
        rw [List.find?_cons_of_neg _ (by simpa using hpa)]
        exact hfind

theorem edLookup_mem {outs : List ((ℕ × ℕ) × RGB)} {pal : List RGB} (hpal : pal ≠ [])
    (hsnd : ∀ q ∈ outs, ∃ a, q.2 = nearestColor pal a)
    {x y : ℕ} (hkey : (x, y) ∈ outs.map Prod.fst) :
    edLookup outs x y ∈ pal := by
  obtain ⟨q, hq, hqeq⟩ := List.mem_map.mp hkey
  obtain ⟨r, hfind, hrmem, _⟩ :=
    find_of_mem (fun q => decide (q.1 = (x, y))) outs ⟨q, hq, by simp [hqeq]⟩
  unfold edLookup
  rw [hfind]
  show r.2 ∈ pal
  obtain ⟨a, ha⟩ := hsnd r hrmem
  rw [ha]
  exact nearestColor_mem hpal a

theorem errorDiffusionDither_pix_mem {pal : List RGB} (hpal : pal ≠ [])
    (kern : Kernel) (img : Bitmap) (x y : ℕ) (hx : x < img.width)
    (hy : y < img.height) :
    (errorDiffusionDither pal kern img).pix x y ∈ pal := by
  show edLookup (edProcess pal kern img.width img.pix
    (rasterPositions img.width img.height) (fun _ _ => ErrV.zero)) x y ∈ pal
  refine edLookup_mem hpal (edProcess_snd pal kern img.width img.pix _ _) ?_
  rw [edProcess_map_fst]
  exact mem_rasterPositions.mpr ⟨hx, hy⟩

theorem allPairs_ne_nil {pal : List RGB} (h : pal ≠ []) : allPairs pal ≠ [] := by
  cases pal with
  | nil => exact absurd rfl h
  | cons p ps =>
    intro hnil
    simp [allPairs, List.flatMap_cons] at hnil

theorem mem_allPairs {pal : List RGB} {pr : RGB × RGB} (h : pr ∈ allPairs pal) :
    pr.1 ∈ pal ∧ pr.2 ∈ pal := by
  obtain ⟨p, hp, hpr⟩ := List.mem_flatMap.mp h
  obtain ⟨q, hq, heq⟩ := List.mem_map.mp hpr
  cases heq
  exact ⟨hp, hq⟩

theorem bestPairAux_cons (c : RGB) (pr : RGB × RGB) (rest : List (RGB × RGB)) :
    bestPairAux c (pr :: rest) = minBy (fun q => dist2 c (rgbAvg q.1 q.2)) pr rest := rfl

theorem bestPairAux_mem (c : RGB) :
    ∀ (l : List (RGB × RGB)), l ≠ [] → bestPairAux c l ∈ l := by
  intro l hl
  cases l with
  | nil => exact absurd rfl hl
  | cons pr rest =>
    rw [bestPairAux_cons]
    exact minBy_mem (fun q : RGB × RGB => dist2 c (rgbAvg q.1 q.2)) rest pr

theorem bestPair_mem {pal : List RGB} (h : pal ≠ []) (c : RGB) :
    (bestPair pal c).1 ∈ pal ∧ (bestPair pal c).2 ∈ pal := by
  have hmem := bestPairAux_mem c (allPairs pal) (allPairs_ne_nil h)
  exact mem_allPairs hmem

theorem paletteDispatch_dims (pal : List RGB) (m : String) (img : Bitmap) :
    (paletteDispatch pal m img).width = img.width ∧
      (paletteDispatch pal m img).height = img.height := by
  unfold paletteDispatch applyOrderedDither applyHitherditherErrorDiffusion imRemap
  repeat' split
  all_goals exact ⟨rfl, rfl⟩

theorem paletteDispatch_pix_mem {pal : List RGB} (hpal : pal ≠ []) (m : String)
    (img : Bitmap) (x y : ℕ) (hx : x < img.width) (hy : y < img.height) :
    (paletteDispatch pal m img).pix x y ∈ pal := by
  have hbp := bestPair_mem hpal (img.pix x y)
  unfold paletteDispatch applyOrderedDither applyHitherditherErrorDiffusion imRemap
  repeat' split
  · show (if 2 * bayerMatrix 3 (x % 8) (y % 8) < 64 then (bestPair pal (img.pix x y)).1
      else (bestPair pal (img.pix x y)).2) ∈ pal
    split
    · exact hbp.1
    · exact hbp.2
  · exact nearestColor_mem hpal _
  · exact nearestColor_mem hpal _
  · exact errorDiffusionDither_pix_mem hpal _ img x y hx hy
  · exact nearestColor_mem hpal _
  · exact errorDiffusionDither_pix_mem hpal _ img x y hx hy
  · exact errorDiffusionDither_pix_mem hpal _ img x y hx hy

theorem addPadding_pix_mem {pal : List RGB} (hblack : black ∈ pal) {d : Bitmap}
    (hd : ∀ x y, x < d.width → y < d.height → d.pix x y ∈ pal) (tW tH x y : ℕ) :
    (addPadding tW tH d).pix x y ∈ pal := by
  show (if (tW - d.width) / 2 ≤ x ∧ x < (tW - d.width) / 2 + d.width ∧
      (tH - d.height) / 2 ≤ y ∧ y < (tH - d.height) / 2 + d.height then
      d.pix (x - (tW - d.width) / 2) (y - (tH - d.height) / 2)
    else black) ∈ pal
  split
  · next hcond => exact hd _ _ (by omega) (by omega)
  · exact hblack

theorem retroConversion_pix_mem {rs : Resampler}
    {conv : Bitmap → String → Except String Bitmap} {pal : List RGB}
    (hpal : pal ≠ []) (hblack : black ∈ pal)
    (hconv : ∀ x d, conv x d = Except.ok (paletteDispatch pal d x))
    {tW tH : ℕ} {mode m : String} {img b : Bitmap}
    (hres : applyRetroConversion rs conv tW tH mode m img = .ok b) :
    ∀ x y, x < b.width → y < b.height → b.pix x y ∈ pal := by
  have hD : ∀ x y, x < (paletteDispatch pal m (ditherInput rs tW tH mode img)).width →
      y < (paletteDispatch pal m (ditherInput rs tW tH mode img)).height →
      (paletteDispatch pal m (ditherInput rs tW tH mode img)).pix x y ∈ pal := by
    intro x y hx hy
    refine paletteDispatch_pix_mem hpal m _ x y ?_ ?_
    · rw [← (paletteDispatch_dims pal m (ditherInput rs tW tH mode img)).1]
      exact hx
    · rw [← (paletteDispatch_dims pal m (ditherInput rs tW tH mode img)).2]
      exact hy
  by_cases hpad : mode = "Pad" ∧
      ((calculateContentDimensions img.width img.height tW tH mode).1 ≠ tW ∨
        (calculateContentDimensions img.width img.height tW tH mode).2 ≠ tH)
  · have hval : applyRetroConversion rs conv tW tH mode m img =
        .ok (addPadding tW tH (paletteDispatch pal m (ditherInput rs tW tH mode img))) := by
      unfold applyRetroConversion
      rw [hconv]
      show (if mode = "Pad" ∧
          ((calculateContentDimensions img.width img.height tW tH mode).1 ≠ tW ∨
            (calculateContentDimensions img.width img.height tW tH mode).2 ≠ tH) then
          Except.ok (addPadding tW tH
            (paletteDispatch pal m (ditherInput rs tW tH mode img)))
        else Except.ok (paletteDispatch pal m (ditherInput rs tW tH mode img))) = _
      rw [if_pos hpad]
    rw [hval] at hres
    have hb := Except.ok.inj hres
    subst hb
    intro x y _ _
    exact addPadding_pix_mem hblack hD tW tH x y
  · have hval : applyRetroConversion rs conv tW tH mode m img =
        .ok (paletteDispatch pal m (ditherInput rs tW tH mode img)) := by
      unfold applyRetroConversion
      rw [hconv]
      show (if mode = "Pad" ∧
          ((calculateContentDimensions img.width img.height tW tH mode).1 ≠ tW ∨
            (calculateContentDimensions img.width img.height tW tH mode).2 ≠ tH) then
          Except.ok (addPadding tW tH
            (paletteDispatch pal m (ditherInput rs tW tH mode img)))
        else Except.ok (paletteDispatch pal m (ditherInput rs tW tH mode img))) = _
      rw [if_neg hpad]
    rw [hval] at hres
    have hb := Except.ok.inj hres
    subst hb
    exact hD

/-- C4: for every input bitmap, fit mode, dither method and smooth filter,
converting with a fixed-palette profile (CGA palette 1, CGA palette 2, or
EGA) yields an output, before the final integer upscale, whose every pixel
is exactly one of that profile's catalog palette entries. -/
theorem fixedPalettePixels (rs : Resampler) (mode m : String) (img : Bitmap) :
    (∀ b, convertToCgaWithPar rs 1 mode m img = .ok b →
      ∀ x y, x < b.width → y < b.height → b.pix x y ∈ cgaPalette1) ∧
    (∀ b, convertToCgaWithPar rs 2 mode m img = .ok b →
      ∀ x y, x < b.width → y < b.height → b.pix x y ∈ cgaPalette2) ∧
    (∀ b, convertToEgaWithPar rs mode m img = .ok b →
      ∀ x y, x < b.width → y < b.height → b.pix x y ∈ egaColors) := by
  refine ⟨?_, ?_, ?_⟩
  · intro b hb
    exact retroConversion_pix_mem (by decide) (by decide) (fun x d => rfl) hb
  · intro b hb
    exact retroConversion_pix_mem (by decide) (by decide) (fun x d => rfl) hb
  · intro b hb
    exact retroConversion_pix_mem (by decide) (by decide) (fun x d => rfl) hb

theorem fixedPalettePixelsWitness :
    ∃ b, convertToCgaWithPar pointResampler 2 "Pad" "None" imgSmall = .ok b ∧
      b.pix 0 0 ∈ cgaPalette2 := by
  refine ⟨addPadding 320 240 (paletteDispatch cgaPalette2 "None"
    (ditherInput pointResampler 320 240 "Pad" imgSmall)), ?_, ?_⟩
  · rfl
  · exact (fixedPalettePixels pointResampler "Pad" "None" imgSmall).2.1 _ rfl 0 0
      (by decide) (by decide)

end ToRetro

namespace ToRetro

theorem imRemap_dims (method : String) (pal : List RGB) (img : Bitmap) :
    (imRemap method pal img).width = img.width ∧
      (imRemap method pal img).height = img.height := by
  unfold imRemap
  repeat' split
  all_goals exact ⟨rfl, rfl⟩

theorem applyVgaPalette_dims (img : Bitmap) (m : String) :
    (applyVgaPalette img m).width = img.width ∧
      (applyVgaPalette img m).height = img.height := by
  unfold applyVgaPalette imQuantize imRemap applyOrderedDither
    applyHitherditherErrorDiffusion
  repeat' split
  all_goals exact ⟨rfl, rfl⟩

theorem applyPc98Palette_dims (img : Bitmap) (m : String) :
    (applyPc98Palette img m).width = img.width ∧
      (applyPc98Palette img m).height = img.height := by
  unfold applyPc98Palette imQuantize imRemap applyOrderedDither
    applyHitherditherErrorDiffusion
  repeat' split
  all_goals exact ⟨rfl, rfl⟩

theorem applyCgaPalette_dims {x : Bitmap} {d : String} {p : ℕ} {bb : Bitmap}
    (h : applyCgaPalette x d p = .ok bb) :
    bb.width = x.width ∧ bb.height = x.height := by
  unfold applyCgaPalette at h
  by_cases h1 : p = 1
  · rw [if_pos h1] at h
    have hb := Except.ok.inj h
    rw [← hb]
    exact paletteDispatch_dims _ _ _
  · rw [if_neg h1] at h
    by_cases h2 : p = 2
    · rw [if_pos h2] at h
      have hb := Except.ok.inj h
      rw [← hb]
      exact paletteDispatch_dims _ _ _
    · rw [if_neg h2] at h
      cases h

theorem retroConversion_dims {rs : Resampler}
    {conv : Bitmap → String → Except String Bitmap}
    (hconvDims : ∀ x d bb, conv x d = .ok bb →
      bb.width = x.width ∧ bb.height = x.height)
    {tW tH : ℕ} {mode m : String} {img b : Bitmap}
    (hsW : 0 < img.width) (hsH : 0 < img.height)
    (hres : applyRetroConversion rs conv tW tH mode m img = .ok b) :
    (mode ≠ "Fit" → b.width = tW ∧ b.height = tH) ∧
      (mode = "Fit" →
        b.width = (calculateContentDimensions img.width img.height tW tH "Fit").1 ∧
        b.height = (calculateContentDimensions img.width img.height tW tH "Fit").2) := by
  have hdi := ditherInputAtContentDims rs tW tH mode img hsW hsH
  cases hc : conv (ditherInput rs tW tH mode img) m with
  | error e =>
    rw [show applyRetroConversion rs conv tW tH mode m img = .error e from by
      unfold applyRetroConversion
      rw [hc]] at hres
    cases hres
  | ok d =>
    have hd := hconvDims _ _ _ hc
    rw [show applyRetroConversion rs conv tW tH mode m img =
        (if mode = "Pad" ∧
            ((calculateContentDimensions img.width img.height tW tH mode).1 ≠ tW ∨
              (calculateContentDimensions img.width img.height tW tH mode).2 ≠ tH) then
          Except.ok (addPadding tW tH d) else Except.ok d) from by
      unfold applyRetroConversion
      rw [hc]] at hres
    refine ⟨?_, ?_⟩
    · intro hfit
      by_cases hpadm : mode = "Pad"
      · subst hpadm
        by_cases hcd :
            (calculateContentDimensions img.width img.height tW tH "Pad").1 ≠ tW ∨
              (calculateContentDimensions img.width img.height tW tH "Pad").2 ≠ tH
        · rw [if_pos ⟨rfl, hcd⟩] at hres
          have hb := Except.ok.inj hres
          subst hb
          exact ⟨rfl, rfl⟩
        · rw [if_neg (fun hx => hcd hx.2)] at hres
          have hb := Except.ok.inj hres
          subst hb
          push_neg at hcd
          refine ⟨?_, ?_⟩
          · rw [hd.1, hdi.1, hcd.1]
          · rw [hd.2, hdi.2, hcd.2]
      · rw [if_neg (fun hx => hpadm hx.1)] at hres
        have hb := Except.ok.inj hres
        subst hb
        have hcd : calculateContentDimensions img.width img.height tW tH mode =
            (tW, tH) := by
          refine contentDims_of_not_padfit ?_
          intro hx
          rcases hx with hx | hx
          exacts [hpadm hx, hfit hx]
        refine ⟨?_, ?_⟩
        · rw [hd.1, hdi.1, hcd]
        · rw [hd.2, hdi.2, hcd]
    · intro hfit
      subst hfit
      rw [if_neg (fun hx => absurd hx.1 (by decide))] at hres
      have hb := Except.ok.inj hres
      subst hb
      exact ⟨hd.1.trans hdi.1, hd.2.trans hdi.2⟩

theorem contentDims_fit_le (srcW srcH tW tH : ℕ) (hsW : 0 < srcW) (hsH : 0 < srcH) :
    (calculateContentDimensions srcW srcH tW tH "Fit").1 ≤ tW ∧
      (calculateContentDimensions srcW srcH tW tH "Fit").2 ≤ tH := by
  unfold calculateContentDimensions
  rw [if_neg (by decide)]
  by_cases hc : srcW * tH > srcH * tW
  · rw [if_pos hc]
    refine ⟨le_refl tW, ?_⟩
    have h1 : srcH * tW ≤ srcW * tH := by omega
    calc srcH * tW / srcW ≤ srcW * tH / srcW := Nat.div_le_div_right h1
    _ = tH := Nat.mul_div_cancel_left tH hsW
  · rw [if_neg hc]
    refine ⟨?_, le_refl tH⟩
    have h1 : srcW * tH ≤ srcH * tW := by omega
    calc srcW * tH / srcH ≤ srcH * tW / srcH := Nat.div_le_div_right h1
    _ = tW := Nat.mul_div_cancel_left tW hsH

theorem contentDims_fit_aspect (srcW srcH tW tH : ℕ) (hsW : 0 < srcW)
    (hsH : 0 < srcH) :
    AspectFitApprox srcW srcH tW tH
      (calculateContentDimensions srcW srcH tW tH "Fit").1
      (calculateContentDimensions srcW srcH tW tH "Fit").2 := by
  unfold calculateContentDimensions AspectFitApprox
  rw [if_neg (by decide)]
  by_cases hc : srcW * tH > srcH * tW
  · rw [if_pos hc]
    left
    show tW = tW ∧ srcW * (srcH * tW / srcW) ≤ tW * srcH ∧
      tW * srcH < srcW * (srcH * tW / srcW + 1)
    refine ⟨rfl, ?_, ?_⟩
    · rw [mul_comm tW srcH, mul_comm srcW (srcH * tW / srcW)]
      exact Nat.div_mul_le_self (srcH * tW) srcW
    · rw [mul_comm tW srcH]
      have hdm := Nat.div_add_mod (srcH * tW) srcW
      have hmod := Nat.mod_lt (srcH * tW) hsW
      have hexp : srcW * (srcH * tW / srcW + 1) = srcW * (srcH * tW / srcW) + srcW := by
        ring
      omega
  · rw [if_neg hc]
    right
    show tH = tH ∧ srcH * (srcW * tH / srcH) ≤ tH * srcW ∧
      tH * srcW < srcH * (srcW * tH / srcH + 1)
    refine ⟨rfl, ?_, ?_⟩
    · rw [mul_comm tH srcW, mul_comm srcH (srcW * tH / srcH)]
      exact Nat.div_mul_le_self (srcW * tH) srcH
    · rw [mul_comm tH srcW]
      have hdm := Nat.div_add_mod (srcW * tH) srcH
      have hmod := Nat.mod_lt (srcW * tH) hsH
      have hexp : srcH * (srcW * tH / srcH + 1) = srcH * (srcW * tH / srcH) + srcH := by
        ring
      omega

/-- C5: for every positive-dimension input and every profile, the output
frame before scaling is exactly the profile's 4:3 target size in Pad, Crop
and Stretch modes (CGA 320×240, EGA/VGA/PC-98 640×480), and in Fit mode the
output is the content-only frame: at most the target in each dimension, and
equal to the integer truncation of exact aspect-preserving dimensions. -/
theorem outputFrameDims (rs : Resampler) (img : Bitmap) (m : String)
    (hsW : 0 < img.width) (hsH : 0 < img.height) :
    (∀ mode b, (mode = "Pad" ∨ mode = "Crop" ∨ mode = "Stretch") →
      ((convertToCgaWithPar rs 1 mode m img = .ok b →
          b.width = 320 ∧ b.height = 240) ∧
        (convertToCgaWithPar rs 2 mode m img = .ok b →
          b.width = 320 ∧ b.height = 240) ∧
        (convertToEgaWithPar rs mode m img = .ok b →
          b.width = 640 ∧ b.height = 480) ∧
        (convertToVgaWithPar rs mode m img = .ok b →
          b.width = 640 ∧ b.height = 480) ∧
        (convertToPc98WithPar rs mode m img = .ok b →
          b.width = 640 ∧ b.height = 480))) ∧
    (∀ b,
      ((convertToCgaWithPar rs 1 "Fit" m img = .ok b ∨
          convertToCgaWithPar rs 2 "Fit" m img = .ok b) →
        b.width ≤ 320 ∧ b.height ≤ 240 ∧
          AspectFitApprox img.width img.height 320 240 b.width b.height) ∧
      ((convertToEgaWithPar rs "Fit" m img = .ok b ∨
          convertToVgaWithPar rs "Fit" m img = .ok b ∨
          convertToPc98WithPar rs "Fit" m img = .ok b) →
        b.width ≤ 640 ∧ b.height ≤ 480 ∧
          AspectFitApprox img.width img.height 640 480 b.width b.height)) := by
  have hcga : ∀ (p : ℕ) (x : Bitmap) (d : String) (bb : Bitmap),
      applyCgaPalette x d p = .ok bb → bb.width = x.width ∧ bb.height = x.height :=
    fun _ _ _ _ h => applyCgaPalette_dims h
  have hega : ∀ (x : Bitmap) (d : String) (bb : Bitmap),
      (Except.ok (applyEgaPalette x d) : Except String Bitmap) = .ok bb →
        bb.width = x.width ∧ bb.height = x.height := by
    intro x d bb h
    have hb := Except.ok.inj h
    rw [← hb]
    exact paletteDispatch_dims _ _ _
  have hvga : ∀ (x : Bitmap) (d : String) (bb : Bitmap),
      (Except.ok (applyVgaPalette x d) : Except String Bitmap) = .ok bb →
        bb.width = x.width ∧ bb.height = x.height := by
    intro x d bb h
    have hb := Except.ok.inj h
    rw [← hb]
    exact applyVgaPalette_dims _ _
  have hpc98 : ∀ (x : Bitmap) (d : String) (bb : Bitmap),
      (Except.ok (applyPc98Palette x d) : Except String Bitmap) = .ok bb →
        bb.width = x.width ∧ bb.height = x.height := by
    intro x d bb h
    have hb := Except.ok.inj h
    rw [← hb]
    exact applyPc98Palette_dims _ _
  have hle320 := contentDims_fit_le img.width img.height 320 240 hsW hsH
  have hle640 := contentDims_fit_le img.width img.height 640 480 hsW hsH
  have hasp320 := contentDims_fit_aspect img.width img.height 320 240 hsW hsH
  have hasp640 := contentDims_fit_aspect img.width img.height 640 480 hsW hsH
  constructor
  · intro mode b hmode
    have hne : mode ≠ "Fit" := by
      rcases hmode with h | h | h <;> subst h <;> decide
    refine ⟨?_, ?_, ?_, ?_, ?_⟩
    · intro h
      exact (retroConversion_dims (hcga 1) hsW hsH h).1 hne
    · intro h
      exact (retroConversion_dims (hcga 2) hsW hsH h).1 hne
    · intro h
      exact (retroConversion_dims hega hsW hsH h).1 hne
    · intro h
      exact (retroConversion_dims hvga hsW hsH h).1 hne
    · intro h
      exact (retroConversion_dims hpc98 hsW hsH h).1 hne
  · intro b
    constructor
    · intro h
      have hdims : b.width = (calculateContentDimensions img.width img.height 320 240 "Fit").1 ∧
          b.height = (calculateContentDimensions img.width img.height 320 240 "Fit").2 := by
        rcases h with h | h
        · exact (retroConversion_dims (hcga 1) hsW hsH h).2 rfl
        · exact (retroConversion_dims (hcga 2) hsW hsH h).2 rfl
      rw [hdims.1, hdims.2]
      exact ⟨hle320.1, hle320.2, hasp320⟩
    · intro h
      have hdims : b.width = (calculateContentDimensions img.width img.height 640 480 "Fit").1 ∧
          b.height = (calculateContentDimensions img.width img.height 640 480 "Fit").2 := by
        rcases h with h | h | h
        · exact (retroConversion_dims hega hsW hsH h).2 rfl
        · exact (retroConversion_dims hvga hsW hsH h).2 rfl
        · exact (retroConversion_dims hpc98 hsW hsH h).2 rfl
      rw [hdims.1, hdims.2]
      exact ⟨hle640.1, hle640.2, hasp640⟩

theorem outputFrameDimsWitness :
    (paletteDispatch cgaPalette1 "None"
        (ditherInput pointResampler 320 240 "Stretch" img640)).width = 320 ∧
      (paletteDispatch cgaPalette1 "None"
        (ditherInput pointResampler 320 240 "Stretch" img640)).height = 240 :=
  ((outputFrameDims pointResampler img640 "None" (by decide) (by decide)).1
    "Stretch" _ (Or.inr (Or.inr rfl))).1 rfl

end ToRetro

namespace ToRetro

theorem eqv_mk_pointwise {a b : Bitmap} (g : ℕ → ℕ → RGB → RGB) (h : Bitmap.Eqv a b) :
    Bitmap.Eqv ⟨a.width, a.height, fun x y => g x y (a.pix x y)⟩
      ⟨b.width, b.height, fun x y => g x y (b.pix x y)⟩ := by
  obtain ⟨hw, hh, hp⟩ := h
  refine ⟨hw, hh, fun x y hx hy => ?_⟩
  show g x y (a.pix x y) = g x y (b.pix x y)
  rw [hp x y hx hy]

theorem edProcess_congr (pal : List RGB) (kern : Kernel) (w : ℕ)
    {pix1 pix2 : ℕ → ℕ → RGB} :
    ∀ (ps : List (ℕ × ℕ)), (∀ p ∈ ps, pix1 p.1 p.2 = pix2 p.1 p.2) →
      ∀ s, edProcess pal kern w pix1 ps s = edProcess pal kern w pix2 ps s := by
  intro ps
  induction ps with
  | nil => intro _ s; rfl
  | cons p rest ih =>
    intro hp s
    obtain ⟨x, y⟩ := p
    have hxy : pix1 x y = pix2 x y := hp (x, y) (List.mem_cons_self _ _)
    have hemit : edEmit pal pix1 s x y = edEmit pal pix2 s x y := by
      unfold edEmit
      rw [hxy]
    have herr : edErr pal pix1 s x y = edErr pal pix2 s x y := by
      unfold edErr edEmit
      rw [hxy]
    simp only [edProcess]
    rw [hemit, herr, ih (fun q hq => hp q (List.mem_cons_of_mem _ hq))]

theorem errorDiffusionDither_eqv (pal : List RGB) (kern : Kernel) {a b : Bitmap}
    (h : Bitmap.Eqv a b) :
    Bitmap.Eqv (errorDiffusionDither pal kern a) (errorDiffusionDither pal kern b) := by
  obtain ⟨hw, hh, hp⟩ := h
  refine ⟨hw, hh, ?_⟩
  intro x y hx hy
  show edLookup (edProcess pal kern a.width a.pix (rasterPositions a.width a.height)
      (fun _ _ => ErrV.zero)) x y =
    edLookup (edProcess pal kern b.width b.pix (rasterPositions b.width b.height)
      (fun _ _ => ErrV.zero)) x y
  rw [← hw, ← hh]
  rw [edProcess_congr pal kern a.width (rasterPositions a.width a.height)
    (fun q hq => by
      obtain ⟨qx, qy⟩ := q
      exact hp qx qy (mem_rasterPositions.mp hq).1 (mem_rasterPositions.mp hq).2)
    (fun _ _ => ErrV.zero)]

theorem rasterColors_congr {a b : Bitmap} (h : Bitmap.Eqv a b) :
    rasterColors a = rasterColors b := by
  obtain ⟨hw, hh, hp⟩ := h
  unfold rasterColors
  rw [← hw, ← hh]
  refine List.map_congr_left ?_
  intro q hq
  obtain ⟨qx, qy⟩ := q
  exact hp qx qy (mem_rasterPositions.mp hq).1 (mem_rasterPositions.mp hq).2

theorem extractPalette_congr {a b : Bitmap} (h : Bitmap.Eqv a b) (n : ℕ) :
    extractPaletteFromQuantized a n = extractPaletteFromQuantized b n := by
  unfold extractPaletteFromQuantized
  rw [rasterColors_congr h]

theorem cropImage_eqv (tW tH : ℕ) {a b : Bitmap} (h : Bitmap.Eqv a b) :
    Bitmap.Eqv (cropImage tW tH a) (cropImage tW tH b) := by
  obtain ⟨hw, hh, hp⟩ := h
  refine ⟨?_, ?_, ?_⟩
  · show min a.width tW = min b.width tW
    rw [hw]
  · show min a.height tH = min b.height tH
    rw [hh]
  · intro x y hx hy
    show a.pix (x + (a.width - min a.width tW) / 2) (y + (a.height - min a.height tH) / 2) =
      b.pix (x + (b.width - min b.width tW) / 2) (y + (b.height - min b.height tH) / 2)
    rw [← hw, ← hh]
    have hxb : x < min a.width tW := hx
    have hyb : y < min a.height tH := hy
    exact hp _ _ (by omega) (by omega)

theorem addPadding_eqv (tW tH : ℕ) {a b : Bitmap} (h : Bitmap.Eqv a b) :
    Bitmap.Eqv (addPadding tW tH a) (addPadding tW tH b) := by
  obtain ⟨hw, hh, hp⟩ := h
  refine ⟨rfl, rfl, ?_⟩
  intro x y _ _
  show (if (tW - a.width) / 2 ≤ x ∧ x < (tW - a.width) / 2 + a.width ∧
      (tH - a.height) / 2 ≤ y ∧ y < (tH - a.height) / 2 + a.height then
      a.pix (x - (tW - a.width) / 2) (y - (tH - a.height) / 2) else black) =
    (if (tW - b.width) / 2 ≤ x ∧ x < (tW - b.width) / 2 + b.width ∧
      (tH - b.height) / 2 ≤ y ∧ y < (tH - b.height) / 2 + b.height then
      b.pix (x - (tW - b.width) / 2) (y - (tH - b.height) / 2) else black)
  rw [← hw, ← hh]
  split
  · next hcond => exact hp _ _ (by omega) (by omega)
  · rfl

theorem resizePoint_eqv (w h : ℕ) {a b : Bitmap} (hab : Bitmap.Eqv a b) :
    Bitmap.Eqv (resizePoint w h a) (resizePoint w h b) := by
  obtain ⟨hw, hh, hp⟩ := hab
  refine ⟨rfl, rfl, ?_⟩
  intro x y hx hy
  have hxw : x < w := hx
  have hyh : y < h := hy
  show (if a.width = 0 ∨ a.height = 0 then black
      else a.pix (x * a.width / w) (y * a.height / h)) =
    (if b.width = 0 ∨ b.height = 0 then black
      else b.pix (x * b.width / w) (y * b.height / h))
  rw [← hw, ← hh]
  split
  · rfl
  · next hcond =>
    push_neg at hcond
    refine hp _ _ ?_ ?_
    · rw [Nat.div_lt_iff_lt_mul (by omega : 0 < w)]
      have := Nat.mul_lt_mul_of_pos_right hxw (by omega : 0 < a.width)
      calc x * a.width < w * a.width := this
      _ = a.width * w := by ring
    · rw [Nat.div_lt_iff_lt_mul (by omega : 0 < h)]
      have := Nat.mul_lt_mul_of_pos_right hyh (by omega : 0 < a.height)
      calc y * a.height < h * a.height := this
      _ = a.height * h := by ring

theorem applyOrderedDither_eqv (pal : List RGB) (m : String) {a b : Bitmap}
    (h : Bitmap.Eqv a b) :
    Bitmap.Eqv (applyOrderedDither pal m a) (applyOrderedDither pal m b) := by
  unfold applyOrderedDither
  by_cases h1 : isYliluomaDither m = true
  · rw [if_pos h1, if_pos h1]
    exact eqv_mk_pointwise (fun x y c =>
      if 2 * bayerMatrix 3 (x % 8) (y % 8) < 64 then (bestPair pal c).1
      else (bestPair pal c).2) h
  · rw [if_neg h1, if_neg h1]
    by_cases h2 : isClusterDotDither m = true
    · rw [if_pos h2, if_pos h2]
      exact eqv_mk_pointwise (fun x y c => nearestColor pal
        (c.addScalar ((64 * (2 * (clusterMatrix x y : ℤ) + 1)) / 32 - 32))) h
    · rw [if_neg h2, if_neg h2]
      exact eqv_mk_pointwise (fun x y c => nearestColor pal
        (c.addScalar (bayerThreshold (getBayerOrder m) x y))) h

theorem ditherNone_eqv (pal : List RGB) {a b : Bitmap} (h : Bitmap.Eqv a b) :
    Bitmap.Eqv (ditherNone pal a) (ditherNone pal b) :=
  eqv_mk_pointwise (fun _ _ c => nearestColor pal c) h

theorem imRemap_eqv (method : String) (pal : List RGB) {a b : Bitmap}
    (h : Bitmap.Eqv a b) :
    Bitmap.Eqv (imRemap method pal a) (imRemap method pal b) := by
  unfold imRemap
  by_cases h1 : method = "no"
  · rw [if_pos h1, if_pos h1]
    exact ditherNone_eqv pal h
  · rw [if_neg h1, if_neg h1]
    by_cases h2 : method = "riemersma"
    · rw [if_pos h2, if_pos h2]
      exact errorDiffusionDither_eqv pal riemersmaKernel h
    · rw [if_neg h2, if_neg h2]
      exact errorDiffusionDither_eqv pal fsKernel h

theorem paletteDispatch_eqv (pal : List RGB) (m : String) {a b : Bitmap}
    (h : Bitmap.Eqv a b) :
    Bitmap.Eqv (paletteDispatch pal m a) (paletteDispatch pal m b) := by
  unfold paletteDispatch
  by_cases h1 : isOrderedDither m = true
  · rw [if_pos h1, if_pos h1]
    exact applyOrderedDither_eqv pal m h
  · rw [if_neg h1, if_neg h1]
    by_cases h2 : isHitherditherErrorDiffusion m = true
    · rw [if_pos h2, if_pos h2]
      exact errorDiffusionDither_eqv pal _ h
    · rw [if_neg h2, if_neg h2]
      exact imRemap_eqv _ pal h

theorem applyVgaPalette_eqv (m : String) {a b : Bitmap} (h : Bitmap.Eqv a b) :
    Bitmap.Eqv (applyVgaPalette a m) (applyVgaPalette b m) := by
  unfold applyVgaPalette imQuantize
  by_cases h1 : (isOrderedDither m || isHitherditherErrorDiffusion m) = true
  · rw [if_pos h1, if_pos h1]
    by_cases h2 : isOrderedDither m = true
    · rw [if_pos h2, if_pos h2, extractPalette_congr h 256]
      exact applyOrderedDither_eqv _ m h
    · rw [if_neg h2, if_neg h2, extractPalette_congr h 256]
      exact errorDiffusionDither_eqv _ _ h
  · rw [if_neg h1, if_neg h1, extractPalette_congr h 256]
    exact imRemap_eqv _ _ h

theorem applyPc98Palette_eqv (m : String) {a b : Bitmap} (h : Bitmap.Eqv a b) :
    Bitmap.Eqv (applyPc98Palette a m) (applyPc98Palette b m) := by
  unfold applyPc98Palette imQuantize
  by_cases h1 : (isOrderedDither m || isHitherditherErrorDiffusion m) = true
  · rw [if_pos h1, if_pos h1]
    by_cases h2 : isOrderedDither m = true
    · rw [if_pos h2, if_pos h2, extractPalette_congr h 16]
      exact applyOrderedDither_eqv _ m h
    · rw [if_neg h2, if_neg h2, extractPalette_congr h 16]
      exact errorDiffusionDither_eqv _ _ h
  · rw [if_neg h1, if_neg h1, extractPalette_congr h 16]
    exact imRemap_eqv _ _ h

end ToRetro

namespace ToRetro

theorem ditherInput_eqv {rs : Resampler} (hrs : rs.Respects) (tW tH : ℕ)
    (mode : String) {img1 img2 : Bitmap} (h : Bitmap.Eqv img1 img2) :
    Bitmap.Eqv (ditherInput rs tW tH mode img1) (ditherInput rs tW tH mode img2) := by
  unfold ditherInput
  by_cases hc : mode = "Crop"
  · rw [if_pos hc, if_pos hc, ← h.1, ← h.2.1]
    exact cropImage_eqv tW tH (hrs _ _ _ _ h)
  · rw [if_neg hc, if_neg hc]
    by_cases hs : mode = "Stretch"
    · rw [if_pos hs, if_pos hs]
      exact hrs _ _ _ _ h
    · rw [if_neg hs, if_neg hs, ← h.1, ← h.2.1]
      exact hrs _ _ _ _ h

theorem retroConversion_eqv {rs : Resampler} (hrs : rs.Respects)
    {conv : Bitmap → String → Except String Bitmap}
    (hconv : ∀ (a b : Bitmap), Bitmap.Eqv a b →
      ∀ d, ExceptBitmapEqv (conv a d) (conv b d))
    (tW tH : ℕ) (mode m : String) {img1 img2 : Bitmap} (h : Bitmap.Eqv img1 img2) :
    ExceptBitmapEqv (applyRetroConversion rs conv tW tH mode m img1)
      (applyRetroConversion rs conv tW tH mode m img2) := by
  have hdi := ditherInput_eqv hrs tW tH mode h
  have hcv := hconv _ _ hdi m
  have hceq : calculateContentDimensions img1.width img1.height tW tH mode =
      calculateContentDimensions img2.width img2.height tW tH mode := by
    rw [h.1, h.2.1]
  unfold applyRetroConversion
  cases hc1 : conv (ditherInput rs tW tH mode img1) m with
  | error e1 =>
    cases hc2 : conv (ditherInput rs tW tH mode img2) m with
    | error e2 =>
      rw [hc1, hc2] at hcv
      exact hcv
    | ok d2 =>
      rw [hc1, hc2] at hcv
      exact hcv.elim
  | ok d1 =>
    cases hc2 : conv (ditherInput rs tW tH mode img2) m with
    | error e2 =>
      rw [hc1, hc2] at hcv
      exact hcv.elim
    | ok d2 =>
      rw [hc1, hc2] at hcv
      have hdd : Bitmap.Eqv d1 d2 := hcv
      show ExceptBitmapEqv
        (if mode = "Pad" ∧
            ((calculateContentDimensions img1.width img1.height tW tH mode).1 ≠ tW ∨
              (calculateContentDimensions img1.width img1.height tW tH mode).2 ≠ tH) then
          Except.ok (addPadding tW tH d1) else Except.ok d1)
        (if mode = "Pad" ∧
            ((calculateContentDimensions img2.width img2.height tW tH mode).1 ≠ tW ∨
              (calculateContentDimensions img2.width img2.height tW tH mode).2 ≠ tH) then
          Except.ok (addPadding tW tH d2) else Except.ok d2)
      by_cases hpad : mode = "Pad" ∧
          ((calculateContentDimensions img1.width img1.height tW tH mode).1 ≠ tW ∨
            (calculateContentDimensions img1.width img1.height tW tH mode).2 ≠ tH)
      · rw [if_pos hpad, if_pos ⟨hpad.1, by rw [← hceq]; exact hpad.2⟩]
        exact addPadding_eqv tW tH hdd
      · rw [if_neg hpad, if_neg (fun hx => hpad ⟨hx.1, by rw [hceq]; exact hx.2⟩)]
        exact hdd

theorem applyCgaPalette_eqv (p : ℕ) (d : String) {a b : Bitmap} (h : Bitmap.Eqv a b) :
    ExceptBitmapEqv (applyCgaPalette a d p) (applyCgaPalette b d p) := by
  unfold applyCgaPalette
  by_cases h1 : p = 1
  · rw [if_pos h1, if_pos h1]
    exact paletteDispatch_eqv cgaPalette1 d h
  · rw [if_neg h1, if_neg h1]
    by_cases h2 : p = 2
    · rw [if_pos h2, if_pos h2]
      exact paletteDispatch_eqv cgaPalette2 d h
    · rw [if_neg h2, if_neg h2]
      exact rfl

theorem convertByType_eqv {rs : Resampler} (hrs : rs.Respects)
    (outputType mode m : String) {img1 img2 : Bitmap} (h : Bitmap.Eqv img1 img2) :
    ExceptBitmapEqv (convertByType rs outputType mode m img1)
      (convertByType rs outputType mode m img2) := by
  unfold convertByType convertToVgaWithPar convertToEgaWithPar convertToCgaWithPar
    convertToPc98WithPar
  by_cases h1 : outputType = "VGA"
  · rw [if_pos h1, if_pos h1]
    exact retroConversion_eqv hrs
      (fun a b hab d =>
        show ExceptBitmapEqv (Except.ok (applyVgaPalette a d) : Except String Bitmap)
            (Except.ok (applyVgaPalette b d)) from applyVgaPalette_eqv d hab)
      640 480 mode m h
  · rw [if_neg h1, if_neg h1]
    by_cases h2 : outputType = "EGA"
    · rw [if_pos h2, if_pos h2]
      exact retroConversion_eqv hrs
        (fun a b hab d =>
          show ExceptBitmapEqv (Except.ok (applyEgaPalette a d) : Except String Bitmap)
              (Except.ok (applyEgaPalette b d)) from paletteDispatch_eqv egaColors d hab)
        640 480 mode m h
    · rw [if_neg h2, if_neg h2]
      by_cases h3 : outputType = "CGA (Cyan/Magenta/White)"
      · rw [if_pos h3, if_pos h3]
        exact retroConversion_eqv hrs (fun a b hab d => applyCgaPalette_eqv 1 d hab)
          320 240 mode m h
      · rw [if_neg h3, if_neg h3]
        by_cases h4 : outputType = "CGA (Green/Red/Yellow)"
        · rw [if_pos h4, if_pos h4]
          exact retroConversion_eqv hrs (fun a b hab d => applyCgaPalette_eqv 2 d hab)
            320 240 mode m h
        · rw [if_neg h4, if_neg h4]
          by_cases h5 : outputType = "PC-98"
          · rw [if_pos h5, if_pos h5]
            exact retroConversion_eqv hrs
              (fun a b hab d =>
                show ExceptBitmapEqv
                    (Except.ok (applyPc98Palette a d) : Except String Bitmap)
                    (Except.ok (applyPc98Palette b d)) from applyPc98Palette_eqv d hab)
              640 480 mode m h
          · rw [if_neg h5, if_neg h5]
            exact rfl

theorem pointResampler_respects : pointResampler.Respects := by
  intro w h a b hab
  exact resizePoint_eqv w h hab

/-- C8: the whole conversion is deterministic — a pure function of the
in-bounds input pixels and the parameters: any two runs on observationally
identical input tensors (same first batch element), with identical profile,
fit mode, dither method and scale, and the same deterministic resampling
filter, produce observationally identical outputs; in particular the
adaptive palette derivation for VGA and PC-98 is a deterministic function
of the content bitmap, with no hidden randomness. -/
theorem conversionDeterministic (rs : Resampler) (hrs : rs.Respects)
    (outputType mode m : String) (scale : ℕ) (t1 t2 : Tensor)
    (hb : 0 < t1.batch) (hch : t1.channels = 3 ∨ t1.channels = 4)
    (ht : Tensor.Eqv t1 t2) :
    ExceptBitmapEqv (imageToRetroImg rs outputType mode m scale t1)
      (imageToRetroImg rs outputType mode m scale t2) := by
  have hw : Bitmap.Eqv (tensorToWand t1) (tensorToWand t2) :=
    tensorToWand_eqv hch ht.2.1 ht.2.2.1 ht.2.2.2.1
      (fun y x c hy hx hc2 => ht.2.2.2.2 0 y x c hb hy hx hc2)
  have hc := convertByType_eqv hrs outputType mode m hw
  unfold imageToRetroImg
  cases h1 : convertByType rs outputType mode m (tensorToWand t1) with
  | error e1 =>
    cases h2 : convertByType rs outputType mode m (tensorToWand t2) with
    | error e2 =>
      rw [h1, h2] at hc
      exact hc
    | ok b2 =>
      rw [h1, h2] at hc
      exact hc.elim
  | ok b1 =>
    cases h2 : convertByType rs outputType mode m (tensorToWand t2) with
    | error e2 =>
      rw [h1, h2] at hc
      exact hc.elim
    | ok b2 =>
      rw [h1, h2] at hc
      have hbb : Bitmap.Eqv b1 b2 := hc
      show ExceptBitmapEqv
        (Except.ok (if scale > 1 then
          resizePoint (b1.width * scale) (b1.height * scale) b1 else b1))
        (Except.ok (if scale > 1 then
          resizePoint (b2.width * scale) (b2.height * scale) b2 else b2))
      by_cases hs : scale > 1
      · rw [if_pos hs, if_pos hs]
        show Bitmap.Eqv (resizePoint (b1.width * scale) (b1.height * scale) b1)
          (resizePoint (b2.width * scale) (b2.height * scale) b2)
        rw [hbb.1, hbb.2.1]
        exact resizePoint_eqv _ _ hbb
      · rw [if_neg hs, if_neg hs]
        exact hbb

theorem conversionDeterministicWitness :
    ExceptBitmapEqv
      (imageToRetroImg pointResampler "PC-98" "Pad" "Bayer 8x8 (ordered)" 1 tensorBatch2)
      (imageToRetroImg pointResampler "PC-98" "Pad" "Bayer 8x8 (ordered)" 1 tensorBatch2) :=
  conversionDeterministic pointResampler pointResampler_respects "PC-98" "Pad"
    "Bayer 8x8 (ordered)" 1 tensorBatch2 tensorBatch2 (by decide) (Or.inl rfl)
    ⟨rfl, rfl, rfl, rfl, fun _ _ _ _ _ _ _ _ => rfl⟩

end ToRetro
